import Mathlib

/-!
Verification of the loom markdown-to-HTML pipeline.

Strings from the Python source are modelled as `List Char`; `None` becomes
`Option.none`; every Python exception becomes an explicit `PyError` value and
fallible functions return `Except PyError _`.  Functions keep the source's
names.  Tree-shaped recursions are written as mutual node/list pairs so that
all definitions are structurally recursive and evaluate inside the kernel.
-/

namespace Loom

/-- Python exceptions raised by the pipeline. -/
inductive PyError where
  | valueError (msg : List Char)
  | assertionError (msg : List Char)
  | indexError
deriving DecidableEq, Repr

/-- `TextType` enum from textnode.py. -/
inductive TextType where
  | PLAIN | BOLD | ITALIC | CODE | LINK | IMAGE
deriving DecidableEq, Repr

/-- `TextNode` from textnode.py: text, node_type, url, children. -/
inductive TextNode where
  | mk (text : List Char) (node_type : TextType) (url : Option (List Char))
       (children : List TextNode)
deriving Repr

def TextNode.text : TextNode → List Char
  | .mk t _ _ _ => t

def TextNode.node_type : TextNode → TextType
  | .mk _ ty _ _ => ty

def TextNode.url : TextNode → Option (List Char)
  | .mk _ _ u _ => u

def TextNode.children : TextNode → List TextNode
  | .mk _ _ _ cs => cs

mutual

def TextNode.decEq : (a b : TextNode) → Decidable (a = b)
  | .mk t ty u cs, .mk t' ty' u' cs' =>
    if h1 : t = t' then
      if h2 : ty = ty' then
        if h3 : u = u' then
          match TextNode.decEqList cs cs' with
          | isTrue h4 => isTrue (by rw [h1, h2, h3, h4])
          | isFalse h4 => isFalse (by intro h; injection h; contradiction)
        else isFalse (by intro h; injection h; contradiction)
      else isFalse (by intro h; injection h; contradiction)
    else isFalse (by intro h; injection h; contradiction)

def TextNode.decEqList : (a b : List TextNode) → Decidable (a = b)
  | [], [] => isTrue rfl
  | [], _ :: _ => isFalse nofun
  | _ :: _, [] => isFalse nofun
  | a :: as, b :: bs =>
    match TextNode.decEq a b, TextNode.decEqList as bs with
    | isTrue h1, isTrue h2 => isTrue (by rw [h1, h2])
    | isFalse h1, _ => isFalse (by intro h; injection h; contradiction)
    | isTrue _, isFalse h2 => isFalse (by intro h; injection h; contradiction)

end

instance : DecidableEq TextNode := TextNode.decEq

instance {ε α : Type} [DecidableEq ε] [DecidableEq α] : DecidableEq (Except ε α) := fun a b =>
  match a, b with
  | .ok x, .ok y =>
    if h : x = y then isTrue (by rw [h])
    else isFalse (by intro c; injection c; contradiction)
  | .error x, .error y =>
    if h : x = y then isTrue (by rw [h])
    else isFalse (by intro c; injection c; contradiction)
  | .ok _, .error _ => isFalse nofun
  | .error _, .ok _ => isFalse nofun

/-- `HTMLNode` hierarchy from htmlnode.py: `leaf` is LeafNode (tag, value,
props), `parent` is ParentNode (tag, children, props).  Props keep the
insertion order of the Python dict. -/
inductive HTMLNode where
  | leaf (tag : Option (List Char)) (value : Option (List Char))
         (props : List (List Char × List Char))
  | parent (tag : Option (List Char)) (children : List HTMLNode)
           (props : List (List Char × List Char))
deriving Repr

def HTMLNode.props : HTMLNode → List (List Char × List Char)
  | .leaf _ _ ps => ps
  | .parent _ _ ps => ps

mutual

def HTMLNode.decEq : (a b : HTMLNode) → Decidable (a = b)
  | .leaf t v ps, .leaf t' v' ps' =>
    if h1 : t = t' then
      if h2 : v = v' then
        if h3 : ps = ps' then isTrue (by rw [h1, h2, h3])
        else isFalse (by intro h; injection h; contradiction)
      else isFalse (by intro h; injection h; contradiction)
    else isFalse (by intro h; injection h; contradiction)
  | .leaf _ _ _, .parent _ _ _ => isFalse nofun
  | .parent _ _ _, .leaf _ _ _ => isFalse nofun
  | .parent t cs ps, .parent t' cs' ps' =>
    if h1 : t = t' then
      if h3 : ps = ps' then
        match HTMLNode.decEqList cs cs' with
        | isTrue h2 => isTrue (by rw [h1, h2, h3])
        | isFalse h2 => isFalse (by intro h; injection h; contradiction)
      else isFalse (by intro h; injection h; contradiction)
    else isFalse (by intro h; injection h; contradiction)

def HTMLNode.decEqList : (a b : List HTMLNode) → Decidable (a = b)
  | [], [] => isTrue rfl
  | [], _ :: _ => isFalse nofun
  | _ :: _, [] => isFalse nofun
  | a :: as, b :: bs =>
    match HTMLNode.decEq a b, HTMLNode.decEqList as bs with
    | isTrue h1, isTrue h2 => isTrue (by rw [h1, h2])
    | isFalse h1, _ => isFalse (by intro h; injection h; contradiction)
    | isTrue _, isFalse h2 => isFalse (by intro h; injection h; contradiction)

end

instance : DecidableEq HTMLNode := HTMLNode.decEq

/-- Whitespace characters recognized by Python's `str.strip`, the regex
class `\s` and friends (ASCII range, which covers all inputs here). -/
def isPyWs (c : Char) : Bool :=
  c = ' ' || c = '\t' || c = '\n' || c = '\r' || c = '\x0b' || c = '\x0c'

def isDigitCh (c : Char) : Bool := '0' ≤ c && c ≤ '9'

/-- Regex class `\w` (ASCII range). -/
def isWordCh (c : Char) : Bool :=
  isDigitCh c || ('a' ≤ c && c ≤ 'z') || ('A' ≤ c && c ≤ 'Z') || c = '_'

/-- Value of a decimal digit string, as computed by Python `int`. -/
def natOfDigits (ds : List Char) : Nat :=
  ds.foldl (fun acc c => acc * 10 + (c.toNat - '0'.toNat)) 0

/-- Python `str.strip()`. -/
def pystrip (s : List Char) : List Char :=
  ((s.dropWhile isPyWs).reverse.dropWhile isPyWs).reverse

/-- Python `str.split(sep)` for a non-empty separator: non-overlapping
occurrences, scanned left to right.  Structural recursion on a fuel
counter so the kernel can evaluate it; fuel bounds the number of consumed
characters, so `fuel = length` always suffices (the fuel-out branch is
unreachable then, see `splitOnSubF_fuel_irrelevant`-style reasoning in the
lemmas below). -/
def splitOnSubF (sep : List Char) : Nat → List Char → List (List Char)
  | _, [] => [[]]
  | 0, cs => [cs]
  | fuel + 1, c :: cs =>
    if sep ≠ [] && sep.isPrefixOf (c :: cs) then
      [] :: splitOnSubF sep fuel (cs.drop (sep.length - 1))
    else
      match splitOnSubF sep fuel cs with
      | [] => [[c]]
      | p :: ps => (c :: p) :: ps

def splitOnSub (sep s : List Char) : List (List Char) :=
  splitOnSubF sep s.length s

/-- Python `str.splitlines()` restricted to the `\n`, `\r`, `\r\n`
terminators (the only ones occurring in this pipeline). -/
def splitlinesAux (acc : List Char) : List Char → List (List Char)
  | [] => [acc.reverse]
  | '\r' :: '\n' :: rest => acc.reverse :: splitlinesAux [] rest
  | '\r' :: rest => acc.reverse :: splitlinesAux [] rest
  | '\n' :: rest => acc.reverse :: splitlinesAux [] rest
  | c :: rest => splitlinesAux (c :: acc) rest

/-- `"".splitlines()` is `[]`, and a trailing terminator does not produce a
final empty line. -/
def splitlines : List Char → List (List Char)
  | [] => []
  | c :: cs =>
    let ls := splitlinesAux [] (c :: cs)
    if ls.getLast? = some [] then ls.dropLast else ls

/-! ### Regex matchers

Each Python regex used by block.py is embedded as a hand-derived matcher,
faithful to `re`'s leftmost greedy-with-backtracking semantics (derived
per-pattern; where backtracking cannot change the outcome the matcher is
written deterministically). -/

/-- Does `x` contain no `'\n'`, except possibly one trailing `'\n'`?
This is where `(.*)$` can stop in a non-MULTILINE Python regex. -/
def dotStarDollar (x : List Char) : Bool :=
  let y := if x.getLast? = some '\n' then x.dropLast else x
  !y.contains '\n'

/-- `re.search(r"^#{1,6}\s+(.*)$", s) is not None` (block classification rule
for headings).  The match is anchored at position 0 by `^`; `\s` also matches
newlines, so the whitespace run after the hashes may span lines. -/
def heading_search (s : List Char) : Bool :=
  let k := (s.takeWhile (· = '#')).length
  if k = 0 || 6 < k then false
  else
    let r := s.drop k
    let ws := r.takeWhile isPyWs
    if ws.isEmpty then false else dotStarDollar (r.drop ws.length)

/-- `re.fullmatch(r"^(#{1,6})\s+.*$", s)`, returning the heading level
(length of group 1). -/
def heading_level_match (s : List Char) : Option Nat :=
  let k := (s.takeWhile (· = '#')).length
  if k = 0 || 6 < k then none
  else
    let r := s.drop k
    let ws := r.takeWhile isPyWs
    if ws.isEmpty then none
    else if (r.drop ws.length).contains '\n' then none else some k

/-- `re.fullmatch(r"^#{1,6}\s+(.+)$", line)`, returning group 1.  The greedy
`\s+` backtracks by at most what `(.+)` needs, so the group starts at
`min(wsRun, len-1)` characters after the hashes. -/
def heading_line_group (line : List Char) : Option (List Char) :=
  let k := (line.takeWhile (· = '#')).length
  if k = 0 || 6 < k then none
  else
    let r := line.drop k
    let ws := r.takeWhile isPyWs
    let j := min ws.length (r.length - 1)
    let g := r.drop j
    if 1 ≤ j ∧ g ≠ [] ∧ !g.contains '\n' then some g else none

/-- `re.search(r"`{3}([\s\S]*?)`{3}", s) is not None`: the text holds two
non-overlapping triple-backtick markers. -/
def has_code_fence (s : List Char) : Bool :=
  3 ≤ (splitOnSub "```".toList s).length

/-- `re.fullmatch(r"`{3}[^\n]*\n([\s\S]*?)`{3}", s)`, returning group 1:
the text between the first newline (the fence's opening line may carry a
language hint) and a closing triple backtick that ends the string. -/
def code_fullmatch (s : List Char) : Option (List Char) :=
  if "```".toList.isPrefixOf s then
    let r := s.drop 3
    let pre := r.takeWhile (· ≠ '\n')
    if pre.length = r.length then none
    else
      let body := r.drop (pre.length + 1)
      if 3 ≤ body.length ∧ "```".toList.isPrefixOf (body.drop (body.length - 3))
      then some (body.take (body.length - 3))
      else none
  else none

/-- `re.fullmatch(r"\s{0,3}>\s?(.*)", line)`, returning group 1: up to three
leading whitespace characters, `>`, at most one further whitespace character,
then the content. -/
def quote_line_group (line : List Char) : Option (List Char) :=
  let p := (line.takeWhile isPyWs).length
  if p ≤ 3 then
    match line.drop p with
    | '>' :: after =>
      let g := match after with
               | c :: rest => if isPyWs c then rest else after
               | [] => []
      if g.contains '\n' then none else some g
    | _ => none
  else none

/-- `re.fullmatch(r"-\s*(.+)", line)`, returning group 1.  The greedy `\s*`
backtracks by at most what `(.+)` needs. -/
def ul_line_group (line : List Char) : Option (List Char) :=
  match line with
  | '-' :: rest =>
    if rest = [] then none
    else
      let w := (rest.takeWhile isPyWs).length
      let j := min w (rest.length - 1)
      let g := rest.drop j
      if g ≠ [] ∧ !g.contains '\n' then some g else none
  | _ => none

/-- `re.fullmatch(r"(\d+)\.\s.+", line)`, returning `int(group 1)`: digits,
a dot, exactly one whitespace character, then at least one more character. -/
def ol_class_line (line : List Char) : Option Nat :=
  let ds := line.takeWhile isDigitCh
  if ds = [] then none
  else
    match line.drop ds.length with
    | '.' :: w :: rest =>
      if isPyWs w ∧ rest ≠ [] ∧ !rest.contains '\n' then some (natOfDigits ds)
      else none
    | _ => none

/-- `re.fullmatch(r"\d+\.\s*(\S.+)", line)`, returning group 1: after the
dot the greedy `\s*` is forced to its maximal run (the group must start with
`\S`), and the group needs at least two characters. -/
def ol_render_line (line : List Char) : Option (List Char) :=
  let ds := line.takeWhile isDigitCh
  if ds = [] then none
  else
    match line.drop ds.length with
    | '.' :: after =>
      let g := after.dropWhile isPyWs
      if 2 ≤ g.length ∧ !(g.drop 1).contains '\n' then some g else none
    | _ => none

/-! ### Inline span parser (inline.py) -/

/-- One entry of `open_stack` in `parse_inline_with_stack`, together with the
children collected so far for the still-open node it introduced. -/
structure Frame where
  delim : List Char
  ty : TextType
  children : List TextNode
deriving DecidableEq, Repr

/-- Flushing the pending plain-text buffer. -/
def flushBuf (buffer : List Char) : List TextNode :=
  if buffer = [] then [] else [.mk buffer .PLAIN none []]

/-- Append a finished node to the children of the innermost open node
(or to the root list when no delimiter is open). -/
def pushNode (n : TextNode) : List Frame → List TextNode → List Frame × List TextNode
  | [], root => ([], root ++ [n])
  | f :: fs, root => ({ f with children := f.children ++ [n] } :: fs, root)

def flushInto (buffer : List Char) (frames : List Frame) (root : List TextNode) :
    List Frame × List TextNode :=
  if buffer = [] then (frames, root)
  else pushNode (.mk buffer .PLAIN none []) frames root

/-- The effect of one delimiter token: if it matches the top of the open
stack the innermost node is closed, otherwise a new node opens. -/
def stepState (buffer : List Char) (frames : List Frame) (root : List TextNode)
    (d : List Char) (ty : TextType) : List Frame × List TextNode :=
  match frames with
  | f :: fs =>
    if f.delim = d then
      pushNode (.mk [] f.ty none (f.children ++ flushBuf buffer)) fs root
    else
      let (fs1, root1) := flushInto buffer (f :: fs) root
      (⟨d, ty, []⟩ :: fs1, root1)
  | [] =>
    let (fs1, root1) := flushInto buffer [] root
    (⟨d, ty, []⟩ :: fs1, root1)

/-- The character scan of `parse_inline_with_stack` over one plain node's
text.  `INLINE_DELIMITERS` is checked in insertion order `"**"`, `"_"`,
`` "`" `` at each position. -/
def scan (buffer : List Char) (frames : List Frame) (root : List TextNode) :
    List Char → Except PyError (List TextNode)
  | [] =>
    match frames with
    | f :: _ =>
      .error (.valueError ("Could not find closing delimiter for ".toList ++ f.delim))
    | [] => .ok (root ++ flushBuf buffer)
  | '*' :: '*' :: rest =>
    let (fs', root') := stepState buffer frames root "**".toList .BOLD
    scan [] fs' root' rest
  | '_' :: rest =>
    let (fs', root') := stepState buffer frames root "_".toList .ITALIC
    scan [] fs' root' rest
  | '`' :: rest =>
    let (fs', root') := stepState buffer frames root "`".toList .CODE
    scan [] fs' root' rest
  | c :: rest => scan (buffer ++ [c]) frames root rest

/-- `parse_inline_with_stack` from inline.py: non-plain nodes pass through,
plain nodes are scanned. -/
def parse_inline_with_stack : List TextNode → Except PyError (List TextNode)
  | [] => .ok []
  | n :: ns =>
    if n.node_type ≠ .PLAIN then
      match parse_inline_with_stack ns with
      | .error e => .error e
      | .ok rest => .ok (n :: rest)
    else
      match scan [] [] [] n.text with
      | .error e => .error e
      | .ok parsed =>
        match parse_inline_with_stack ns with
        | .error e => .error e
        | .ok rest => .ok (parsed ++ rest)

/-- The delimiter stack alone (same transitions as `scan`, nodes dropped);
a non-empty final stack is exactly "the input contains an unclosed inline
delimiter at end of input". -/
def simStep (stack : List (List Char)) (d : List Char) : List (List Char) :=
  match stack with
  | t :: ts => if t = d then ts else d :: t :: ts
  | [] => [d]

def stackSim (stack : List (List Char)) : List Char → List (List Char)
  | [] => stack
  | '*' :: '*' :: rest => stackSim (simStep stack "**".toList) rest
  | '_' :: rest => stackSim (simStep stack "_".toList) rest
  | '`' :: rest => stackSim (simStep stack "`".toList) rest
  | _ :: rest => stackSim stack rest

/-- Match of `!\[([\w\s]+)\]\(([^\(\)]*)\)` anchored at the head of the
input; every quantifier in it is forced, so the matcher is deterministic.
Returns alt text, url and the remainder after the match. -/
def imageMatchAt : List Char → Option (List Char × List Char × List Char)
  | '!' :: '[' :: rest =>
    let alt := rest.takeWhile (fun c => isWordCh c || isPyWs c)
    if alt = [] then none
    else
      match rest.drop alt.length with
      | ']' :: '(' :: rest2 =>
        let url := rest2.takeWhile (fun c => !(c = '(' || c = ')'))
        match rest2.drop url.length with
        | ')' :: rest3 => some (alt, url, rest3)
        | _ => none
      | _ => none
  | _ => none

/-- `re.findall` scan for the image pattern: leftmost, non-overlapping.
Fuel is the input length; each step consumes at least one character. -/
def findImagesF : Nat → List Char → List (List Char × List Char)
  | 0, _ => []
  | _ + 1, [] => []
  | fuel + 1, c :: cs =>
    match imageMatchAt (c :: cs) with
    | some (alt, url, rest) => (alt, url) :: findImagesF fuel rest
    | none => findImagesF fuel cs

/-- `extract_markdown_images` from inline.py. -/
def extract_markdown_images (s : List Char) : List (List Char × List Char) :=
  findImagesF s.length s

/-- Character class `[^)\s]` of the link-url pattern. -/
def isUrlPlainCh (c : Char) : Bool := !(c = ')' || isPyWs c)

mutual

/-- Backtracking for `(?:\([^)]*\)[^)\s]*)*\)` of the link pattern: greedy
(an iteration is attempted before the closing parenthesis), returning the
remainder after the closing `)`.  Fuel bounds the number of backtracking
steps; callers pass a quadratic bound, which the search never exceeds. -/
def urlStarClose : Nat → List Char → Option (List Char)
  | 0, _ => none
  | fuel + 1, cs =>
    let viaIter :=
      match cs with
      | '(' :: r1 =>
        let b := r1.takeWhile (· ≠ ')')
        (match r1.drop b.length with
         | ')' :: r2 => urlTryC fuel (r2.takeWhile isUrlPlainCh).length r2
         | _ => none)
      | _ => none
    match viaIter with
    | some r => some r
    | none => match cs with
              | ')' :: r => some r
              | _ => none

/-- Greedy choice of the `[^)\s]*` run after an iteration: longest first. -/
def urlTryC : Nat → Nat → List Char → Option (List Char)
  | 0, _, _ => none
  | fuel + 1, k, r2 =>
    match urlStarClose fuel (r2.drop k) with
    | some r => some r
    | none => match k with
              | 0 => none
              | k' + 1 => urlTryC fuel k' r2

end

/-- Greedy choice of the leading `[^)\s]+` run: longest first, at least 1. -/
def urlTryA : Nat → Nat → List Char → Option (List Char)
  | 0, _, _ => none
  | fuel + 1, a, cs =>
    match a with
    | 0 => none
    | a' + 1 =>
      match urlStarClose fuel (cs.drop (a' + 1)) with
      | some r => some r
      | none => urlTryA fuel a' cs

/-- Match of `(?<!!)\[([^\]]*)\]\(([^)\s]+(?:\([^)]*\)[^)\s]*)*)\)` anchored
at the head of the input, with `prev` the character before it (for the
negative lookbehind).  Returns link text, url and the remainder. -/
def linkMatchAt (prev : Option Char) : List Char → Option (List Char × List Char × List Char)
  | '[' :: rest =>
    if prev = some '!' then none
    else
      let txt := rest.takeWhile (· ≠ ']')
      match rest.drop txt.length with
      | ']' :: '(' :: rest2 =>
        let a := rest2.takeWhile isUrlPlainCh
        if a = [] then none
        else
          match urlTryA ((rest2.length + 2) * (rest2.length + 2)) a.length rest2 with
          | some r => some (txt, rest2.take (rest2.length - r.length - 1), r)
          | none => none
      | _ => none
  | _ => none

/-- `re.findall` scan for the link pattern, carrying the previous character
for the lookbehind. -/
def findLinksF : Nat → Option Char → List Char → List (List Char × List Char)
  | 0, _, _ => []
  | _ + 1, _, [] => []
  | fuel + 1, prev, c :: cs =>
    match linkMatchAt prev (c :: cs) with
    | some (txt, url, rest) => (txt, url) :: findLinksF fuel (some ')') rest
    | none => findLinksF fuel (some c) cs

/-- `extract_markdown_links` from inline.py. -/
def extract_markdown_links (s : List Char) : List (List Char × List Char) :=
  findLinksF s.length none s

/-- The per-image loop of `split_nodes_image`: `txt.split(sep)` is consulted
for `parts[0]` and `parts[1]`; a missing `parts[1]` is Python's IndexError. -/
def nodes_from_images (ty : TextType) : List (List Char × List Char) → List Char →
    Except PyError (List TextNode)
  | [], txt => .ok (if txt ≠ [] then [.mk txt ty none []] else [])
  | (alt, url) :: rest, txt =>
    let sep := "![".toList ++ alt ++ "](".toList ++ url ++ ")".toList
    match splitOnSub sep txt with
    | p0 :: p1 :: _ =>
      match nodes_from_images ty rest p1 with
      | .error e => .error e
      | .ok ns =>
        .ok ((if p0 ≠ [] then [TextNode.mk p0 ty none []] else []) ++
             [TextNode.mk alt .IMAGE (some url) []] ++ ns)
    | _ => .error .indexError

/-- The per-link loop of `split_nodes_link`. -/
def nodes_from_links (ty : TextType) : List (List Char × List Char) → List Char →
    Except PyError (List TextNode)
  | [], txt => .ok (if txt ≠ [] then [.mk txt ty none []] else [])
  | (txt0, url) :: rest, txt =>
    let sep := "[".toList ++ txt0 ++ "](".toList ++ url ++ ")".toList
    match splitOnSub sep txt with
    | p0 :: p1 :: _ =>
      match nodes_from_links ty rest p1 with
      | .error e => .error e
      | .ok ns =>
        .ok ((if p0 ≠ [] then [TextNode.mk p0 ty none []] else []) ++
             [TextNode.mk txt0 .LINK (some url) []] ++ ns)
    | _ => .error .indexError

mutual

/-- `split_nodes_image` from inline.py. -/
def split_nodes_image : List TextNode → Except PyError (List TextNode)
  | [] => .ok []
  | n :: rest =>
    match split_nodes_image_node n with
    | .error e => .error e
    | .ok these =>
      match split_nodes_image rest with
      | .error e => .error e
      | .ok more => .ok (these ++ more)

/-- The body of `split_nodes_image`'s loop for one node: recurse into
non-empty children first, then split the node's own text on its images. -/
def split_nodes_image_node : TextNode → Except PyError (List TextNode)
  | .mk t ty u cs =>
    match (if cs.isEmpty then .ok cs else split_nodes_image cs) with
    | .error e => .error e
    | .ok cs' =>
      match extract_markdown_images t with
      | [] => .ok [TextNode.mk t ty u cs']
      | imgs => nodes_from_images ty imgs t

end

mutual

/-- `split_nodes_link` from inline.py. -/
def split_nodes_link : List TextNode → Except PyError (List TextNode)
  | [] => .ok []
  | n :: rest =>
    match split_nodes_link_node n with
    | .error e => .error e
    | .ok these =>
      match split_nodes_link rest with
      | .error e => .error e
      | .ok more => .ok (these ++ more)

/-- The body of `split_nodes_link`'s loop for one node. -/
def split_nodes_link_node : TextNode → Except PyError (List TextNode)
  | .mk t ty u cs =>
    match (if cs.isEmpty then .ok cs else split_nodes_link cs) with
    | .error e => .error e
    | .ok cs' =>
      match extract_markdown_links t with
      | [] => .ok [TextNode.mk t ty u cs']
      | links => nodes_from_links ty links t

end

mutual

/-- `collapse_single_child_nodes` from inline.py (written functionally:
the Python version rewrites the list in place). -/
def collapse_single_child_nodes : List TextNode → List TextNode
  | [] => []
  | n :: ns => collapse_node n :: collapse_single_child_nodes ns

/-- One node of `collapse_single_child_nodes`: a wrapper with exactly one
child and empty text is replaced by a node of the wrapper's type carrying
the child's text (the child's own children are not kept); a node with two
or more children is recursed into; others are untouched. -/
def collapse_node : TextNode → TextNode
  | .mk t ty u cs =>
    match cs with
    | [] => .mk t ty u []
    | [only] => if t = [] then .mk only.text ty none [] else .mk t ty u [only]
    | _ => .mk t ty u (collapse_single_child_nodes cs)

end

/-- `text_to_textnodes` from inline.py: stack parse, then image extraction,
then link extraction, then the collapse pass. -/
def text_to_textnodes (text : List Char) : Except PyError (List TextNode) :=
  match parse_inline_with_stack [TextNode.mk text .PLAIN none []] with
  | .error e => .error e
  | .ok ns1 =>
    match split_nodes_image ns1 with
    | .error e => .error e
    | .ok ns2 =>
      match split_nodes_link ns2 with
      | .error e => .error e
      | .ok ns3 => .ok (collapse_single_child_nodes ns3)

/-! ### AST to HTML (textnode.py, leafnode.py, parentnode.py)

A Python `props=None` and `props={}` behave identically in `props_to_html`;
both are modelled as the empty list. -/

mutual

/-- `text_node_to_html_node` from textnode.py.  A node with (non-empty)
children must map through `INLINE_TAG_MAP` (`BOLD ↦ b`, `ITALIC ↦ i`,
`CODE ↦ code`); other child-bearing types raise ValueError.  Childless nodes
become leaves. -/
def text_node_to_html_node : TextNode → Except PyError HTMLNode
  | .mk t ty u cs =>
    if cs ≠ [] then
      match ty with
      | .BOLD =>
        match text_nodes_to_html_nodes cs with
        | .error e => .error e
        | .ok hs => .ok (.parent (some "b".toList) hs [])
      | .ITALIC =>
        match text_nodes_to_html_nodes cs with
        | .error e => .error e
        | .ok hs => .ok (.parent (some "i".toList) hs [])
      | .CODE =>
        match text_nodes_to_html_nodes cs with
        | .error e => .error e
        | .ok hs => .ok (.parent (some "code".toList) hs [])
      | _ => .error (.valueError "TextType cannot have children".toList)
    else
      match ty with
      | .PLAIN => .ok (.leaf none (some t) [])
      | .BOLD => .ok (.leaf (some "b".toList) (some t) [])
      | .ITALIC => .ok (.leaf (some "i".toList) (some t) [])
      | .CODE => .ok (.leaf (some "code".toList) (some t) [])
      | .LINK => .ok (.leaf (some "a".toList) (some t) [("href".toList, u.getD [])])
      | .IMAGE => .ok (.leaf (some "img".toList) (some [])
                        [("src".toList, u.getD []), ("alt".toList, t)])

def text_nodes_to_html_nodes : List TextNode → Except PyError (List HTMLNode)
  | [] => .ok []
  | n :: ns =>
    match text_node_to_html_node n with
    | .error e => .error e
    | .ok h =>
      match text_nodes_to_html_nodes ns with
      | .error e => .error e
      | .ok hs => .ok (h :: hs)

end

/-- `HTMLNode.props_to_html`: concatenation of ` name="value"` pairs in
insertion order. -/
def props_to_html (ps : List (List Char × List Char)) : List Char :=
  ps.foldl (fun acc pv =>
    acc ++ " ".toList ++ pv.1 ++ "=\"".toList ++ pv.2 ++ "\"".toList) []

mutual

/-- `LeafNode.to_html` and `ParentNode.to_html`.  A leaf with `value=None`
raises; a tagless leaf renders raw content.  A parent with a falsy tag
(None or empty) raises, then one with falsy children raises; otherwise it
renders the concatenated children between its tags. -/
def HTMLNode.to_html : HTMLNode → Except PyError (List Char)
  | .leaf tag v ps =>
    match v with
    | none => .error (.valueError "Empty Value".toList)
    | some val =>
      match tag with
      | none => .ok val
      | some tg =>
        .ok ("<".toList ++ tg ++ props_to_html ps ++ ">".toList ++ val ++
             "</".toList ++ tg ++ ">".toList)
  | .parent tag cs ps =>
    match tag with
    | none => .error (.valueError "None tag for parent node".toList)
    | some tg =>
      if tg = [] then .error (.valueError "None tag for parent node".toList)
      else if cs = [] then .error (.valueError "None children tag for parent node".toList)
      else
        match HTMLNode.children_html cs with
        | .error e => .error e
        | .ok inner =>
          .ok ("<".toList ++ tg ++ props_to_html ps ++ ">".toList ++ inner ++
               "</".toList ++ tg ++ ">".toList)

/-- `"".join(child.to_html() for child in children)`. -/
def HTMLNode.children_html : List HTMLNode → Except PyError (List Char)
  | [] => .ok []
  | n :: ns =>
    match HTMLNode.to_html n with
    | .error e => .error e
    | .ok s =>
      match HTMLNode.children_html ns with
      | .error e => .error e
      | .ok rest => .ok (s ++ rest)

end

/-! ### Block classifier and pipeline (block.py) -/

/-- `BlockType` enum from block.py. -/
inductive BlockType where
  | PARAGRAPH | HEADING | CODE | QUOTE | UNORDERED_LIST | ORDERED_LIST
deriving DecidableEq, Repr

/-- `markdown_to_blocks`: split on `"\n\n"`, strip each block, drop empties. -/
def markdown_to_blocks (markdown : List Char) : List (List Char) :=
  ((splitOnSub "\n\n".toList markdown).map pystrip).filter (· ≠ [])

/-- The per-line loop of `is_ordered_list`: the running `expected` counter
starts at 1 and each line's number must equal it. -/
def olLoop : List (List Char) → Nat → Bool
  | [], _ => true
  | l :: ls, expected =>
    match ol_class_line l with
    | none => false
    | some n => n = expected && olLoop ls (expected + 1)

/-- `is_ordered_list` from block.py. -/
def is_ordered_list (block : List Char) : Bool :=
  let b := pystrip block
  if b = [] then false else olLoop (splitlines b) 1

/-- `block_to_block_type` from block.py: ordered first-match classification. -/
def block_to_block_type (markdown : List Char) : BlockType :=
  if markdown = [] then .PARAGRAPH
  else if heading_search markdown then .HEADING
  else if has_code_fence markdown then .CODE
  else if (splitlines markdown).all (fun l => (quote_line_group l).isSome) then .QUOTE
  else if (splitlines markdown).all (fun l => (ul_line_group l).isSome) then .UNORDERED_LIST
  else if is_ordered_list markdown then .ORDERED_LIST
  else .PARAGRAPH

/-- The no-subparent loop of `html_node_regex_match`: text nodes of all lines
are collected first and converted to HTML nodes only after the loop. -/
def regex_collect (matcher : List Char → Option (List Char)) :
    List (List Char) → Except PyError (List TextNode)
  | [] => .ok []
  | line :: ls =>
    match matcher line with
    | none => .error (.assertionError [])
    | some g =>
      match text_to_textnodes g with
      | .error e => .error e
      | .ok tns =>
        match regex_collect matcher ls with
        | .error e => .error e
        | .ok more => .ok (tns ++ more)

/-- The subparent loop of `html_node_regex_match`: each line becomes one
`ParentNode(subparent, ...)` built inside the loop. -/
def regex_subparent (matcher : List Char → Option (List Char)) (sp : List Char) :
    List (List Char) → Except PyError (List HTMLNode)
  | [] => .ok []
  | line :: ls =>
    match matcher line with
    | none => .error (.assertionError [])
    | some g =>
      match text_to_textnodes g with
      | .error e => .error e
      | .ok tns =>
        match text_nodes_to_html_nodes tns with
        | .error e => .error e
        | .ok hns =>
          match regex_subparent matcher sp ls with
          | .error e => .error e
          | .ok more => .ok (.parent (some sp) hns [] :: more)

/-- `html_node_regex_match` from block.py, with the regex passed as its
group-extracting matcher.  A line the pattern does not fullmatch trips the
`assert m is not None`. -/
def html_node_regex_match (matcher : List Char → Option (List Char))
    (text : List Char) (subparent : Option (List Char)) :
    Except PyError (List HTMLNode) :=
  match subparent with
  | some sp => regex_subparent matcher sp (splitlines text)
  | none =>
    match regex_collect matcher (splitlines text) with
    | .error e => .error e
    | .ok tns => text_nodes_to_html_nodes tns

/-- `text.replace("\n", " ")`. -/
def replaceNlSpace (s : List Char) : List Char :=
  s.map (fun c => if c = '\n' then ' ' else c)

/-- `text_to_children` from block.py. -/
def text_to_children (text : List Char) : Except PyError (List HTMLNode) :=
  match block_to_block_type text with
  | .HEADING => html_node_regex_match heading_line_group text none
  | .PARAGRAPH =>
    match text_to_textnodes (replaceNlSpace text) with
    | .error e => .error e
    | .ok tns => text_nodes_to_html_nodes tns
  | .QUOTE => html_node_regex_match quote_line_group text none
  | .UNORDERED_LIST => html_node_regex_match ul_line_group text (some "ul".toList)
  | .ORDERED_LIST => html_node_regex_match ol_render_line text (some "ol".toList)
  | .CODE => .error (.assertionError "How the hell control reach here".toList)

/-- The tag `f"h{len(hashes)}"` for a heading level 1–6. -/
def headingTag (k : Nat) : List Char := ['h', Char.ofNat (48 + k)]

/-- `get_block_html_node` from block.py. -/
def get_block_html_node (markdown_block : List Char) : Except PyError HTMLNode :=
  match block_to_block_type markdown_block with
  | .PARAGRAPH =>
    match text_to_children markdown_block with
    | .error e => .error e
    | .ok cs => .ok (.parent (some "p".toList) cs [])
  | .HEADING =>
    match heading_level_match markdown_block with
    | none => .error (.assertionError [])
    | some k =>
      match text_to_children markdown_block with
      | .error e => .error e
      | .ok cs => .ok (.parent (some (headingTag k)) cs [])
  | .CODE =>
    match code_fullmatch markdown_block with
    | none => .error (.assertionError [])
    | some snippet =>
      .ok (.parent (some "pre".toList) [.leaf (some "code".toList) (some snippet) []] [])
  | .QUOTE =>
    match text_to_children markdown_block with
    | .error e => .error e
    | .ok cs => .ok (.parent (some "blockquote".toList) cs [])
  | .UNORDERED_LIST =>
    match text_to_children markdown_block with
    | .error e => .error e
    | .ok cs => .ok (.parent (some "ul".toList) cs [])
  | .ORDERED_LIST =>
    match text_to_children markdown_block with
    | .error e => .error e
    | .ok cs => .ok (.parent (some "ol".toList) cs [])

/-- The block loop of `markdown_to_html_node`.  (The loop's
`if root_element.children is None: raise` guard is dead code — the children
list was just constructed — and is not modelled.) -/
def blocks_to_children : List (List Char) → Except PyError (List HTMLNode)
  | [] => .ok []
  | b :: bs =>
    match get_block_html_node b with
    | .error e => .error e
    | .ok h =>
      match blocks_to_children bs with
      | .error e => .error e
      | .ok hs => .ok (h :: hs)

/-- `markdown_to_html_node` from block.py: the synthetic `div` root. -/
def markdown_to_html_node (markdown : List Char) : Except PyError HTMLNode :=
  match blocks_to_children (markdown_to_blocks markdown) with
  | .error e => .error e
  | .ok cs => .ok (.parent (some "div".toList) cs [])

/-- `markdown_to_html_node(markdown).to_html()`, the composition used by the
page generator (website_utils.py). -/
def markdown_to_html (markdown : List Char) : Except PyError (List Char) :=
  match markdown_to_html_node markdown with
  | .error e => .error e
  | .ok node => node.to_html

/-! ### Table support, modelled from the spec

The repository's table classifier and renderer are not under src/ — only
test_table.py exercises them (src/src/block.py has no TABLE member in
`BlockType`).  The definitions in this section are therefore modelled from
spec §4.1 rule 6 and §4.1a and are used only for claim C1. -/

/-- Modelled from the spec: the "pipe-delimited row" test of the missing
table classifier — the trimmed line starts and ends with `|` (spec §4.1
rule 6: "first line and second line both match pipe-delimited rows"). -/
def isPipeRow (line : List Char) : Bool :=
  let t := pystrip line
  2 ≤ t.length && t.head? = some '|' && t.getLast? = some '|'

/-- Modelled from the spec: the missing pipe-aware row splitter of §4.1a — a
`|` preceded by a backslash, or inside a backtick-delimited span, does not
split the row. -/
def splitCellsAux (inCode : Bool) (acc : List Char) : List Char → List (List Char)
  | [] => [acc.reverse]
  | '\\' :: '|' :: rest => splitCellsAux inCode ('|' :: '\\' :: acc) rest
  | '`' :: rest => splitCellsAux (!inCode) ('`' :: acc) rest
  | '|' :: rest =>
    if inCode then splitCellsAux inCode ('|' :: acc) rest
    else acc.reverse :: splitCellsAux false [] rest
  | c :: rest => splitCellsAux inCode (c :: acc) rest

/-- Modelled from the spec: cells of a pipe row — the text between the outer
pipes is split pipe-aware and each cell is trimmed. -/
def splitRowCells (line : List Char) : List (List Char) :=
  let t := pystrip line
  (splitCellsAux false [] ((t.drop 1).dropLast)).map pystrip

/-- Modelled from the spec: the delimiter-cell pattern of §4.1 rule 6 —
`:---`, `---:`, `:---:` or plain `---`, minimum 3 dashes. -/
def isDelimCell (cell : List Char) : Bool :=
  let r1 := match cell with
            | ':' :: rest => rest
            | _ => cell
  let ds := r1.takeWhile (· = '-')
  let rest2 := r1.drop ds.length
  3 ≤ ds.length && (rest2 = [] || rest2 = [':'])

/-- Per-column alignment of §4.1a. -/
inductive ColAlign where
  | left | center | right
deriving DecidableEq, Repr

/-- Modelled from the spec: colon on both ends ⇒ center; right only ⇒
right; left only or none ⇒ left. -/
def alignOf (cell : List Char) : ColAlign :=
  if cell.head? = some ':' ∧ cell.getLast? = some ':' then .center
  else if cell.getLast? = some ':' then .right
  else .left

/-- Modelled from the spec: the table test of the missing classifier —
first two lines are pipe rows, the second is all delimiter cells, and its
cell count equals the header row's. -/
def is_table_block (markdown : List Char) : Bool :=
  match splitlines markdown with
  | l0 :: l1 :: _ =>
    isPipeRow l0 && isPipeRow l1 &&
    (splitRowCells l1).all isDelimCell &&
    (splitRowCells l1).length == (splitRowCells l0).length
  | _ => false

/-- `BlockType` extended with the spec's Table variant. -/
inductive BlockTypeT where
  | PARAGRAPH | HEADING | CODE | QUOTE | UNORDERED_LIST | ORDERED_LIST | TABLE
deriving DecidableEq, Repr

/-- Modelled from the spec: the §4.1 first-match classification with the
table rule in its documented position (rule 6, before the Paragraph
default); rules 1–5 are the ones implemented in src/src/block.py. -/
def block_to_block_type_t (markdown : List Char) : BlockTypeT :=
  if markdown = [] then .PARAGRAPH
  else if heading_search markdown then .HEADING
  else if has_code_fence markdown then .CODE
  else if (splitlines markdown).all (fun l => (quote_line_group l).isSome) then .QUOTE
  else if (splitlines markdown).all (fun l => (ul_line_group l).isSome) then .UNORDERED_LIST
  else if is_ordered_list markdown then .ORDERED_LIST
  else if is_table_block markdown then .TABLE
  else .PARAGRAPH

/-- Modelled from the spec: left alignment is implicit and must not be
emitted; center / right emit the `align` attribute. -/
def alignProps : ColAlign → List (List Char × List Char)
  | .left => []
  | .center => [("align".toList, "center".toList)]
  | .right => [("align".toList, "right".toList)]

/-- Modelled from the spec: one rendered table cell — its text inline-parsed
independently, its props exactly the column alignment's attributes.  (An
empty cell becomes a leaf so that it still renders.) -/
def make_table_cell (tag : List Char) (al : ColAlign) (txt : List Char) :
    Except PyError HTMLNode :=
  match text_to_textnodes txt with
  | .error e => .error e
  | .ok tns =>
    match text_nodes_to_html_nodes tns with
    | .error e => .error e
    | .ok hs =>
      .ok (if hs = [] then .leaf (some tag) (some []) (alignProps al)
           else .parent (some tag) hs (alignProps al))

/-- One table row's cells, each built by `make_table_cell` with its column's
alignment. -/
def table_cells (tag : List Char) : List (List Char × ColAlign) →
    Except PyError (List HTMLNode)
  | [] => .ok []
  | (txt, al) :: rest =>
    match make_table_cell tag al txt with
    | .error e => .error e
    | .ok c =>
      match table_cells tag rest with
      | .error e => .error e
      | .ok cs => .ok (c :: cs)

/-- Modelled from the spec: body rows are right-padded with empty cells or
right-truncated to the header's column count. -/
def padTruncate (n : Nat) (cells : List (List Char)) : List (List Char) :=
  cells.take n ++ List.replicate (n - cells.length) []

def table_rows (aligns : List ColAlign) (n : Nat) :
    List (List Char) → Except PyError (List HTMLNode)
  | [] => .ok []
  | r :: rs =>
    match table_cells "td".toList ((padTruncate n (splitRowCells r)).zip aligns) with
    | .error e => .error e
    | .ok tds =>
      match table_rows aligns n rs with
      | .error e => .error e
      | .ok trs => .ok (.parent (some "tr".toList) tds [] :: trs)

/-- Modelled from the spec: the missing table renderer of §4.1a — a
`table` element holding a `thead` with the header row, and a `tbody` with
the body rows only when at least one body row exists. -/
def render_table (markdown : List Char) : Except PyError HTMLNode :=
  match splitlines markdown with
  | l0 :: l1 :: body =>
    let headers := splitRowCells l0
    let aligns := (splitRowCells l1).map alignOf
    match table_cells "th".toList (headers.zip aligns) with
    | .error e => .error e
    | .ok ths =>
      let thead : HTMLNode :=
        .parent (some "thead".toList) [.parent (some "tr".toList) ths []] []
      match body with
      | [] => .ok (.parent (some "table".toList) [thead] [])
      | _ =>
        match table_rows aligns headers.length body with
        | .error e => .error e
        | .ok trs =>
          .ok (.parent (some "table".toList)
                [thead, .parent (some "tbody".toList) trs []] [])
  | _ => .error (.assertionError [])

/-- Modelled from the spec: `get_block_html_node` extended with the Table
branch; every other block type behaves as src/src/block.py does. -/
def get_block_html_node_t (b : List Char) : Except PyError HTMLNode :=
  if block_to_block_type_t b = .TABLE then render_table b else get_block_html_node b

/-! ### The inline-tree children invariant (claim C4) -/

mutual

/-- A `TextNode` tree in which only BOLD, ITALIC and CODE nodes carry
children. -/
def goodInline : TextNode → Bool
  | .mk _ ty _ cs =>
    (ty = .BOLD || ty = .ITALIC || ty = .CODE || cs.isEmpty) && goodInlines cs

def goodInlines : List TextNode → Bool
  | [] => true
  | n :: ns => goodInline n && goodInlines ns

end

/-- The invariant carried by `scan`'s open frames: collected children are
good and every open node is of a delimiter type. -/
def FramesGood (frames : List Frame) : Prop :=
  ∀ f ∈ frames, goodInlines f.children = true ∧
    (f.ty = .BOLD ∨ f.ty = .ITALIC ∨ f.ty = .CODE)

/-! ### Sanity checks: concrete evaluations of the embedding -/

example : heading_search "# Title".toList = true := by decide
example : heading_search "#\n x".toList = true := by decide
example : heading_search "# a\nb".toList = false := by decide
example : heading_search "# ".toList = true := by decide
example : heading_search "#".toList = false := by decide
example : heading_search "####### x".toList = false := by decide
example : heading_search "# a\n".toList = true := by decide
example : heading_level_match "#\n x".toList = some 1 := by decide
example : heading_level_match "# a\n".toList = none := by decide
example : heading_level_match "### T".toList = some 3 := by decide
example : heading_line_group "# Title".toList = some "Title".toList := by decide
example : heading_line_group "#  ".toList = some " ".toList := by decide
example : heading_line_group "# ".toList = none := by decide
example : heading_line_group "#".toList = none := by decide
example : has_code_fence "```a```".toList = true := by decide
example : has_code_fence "`````".toList = false := by decide
example : has_code_fence "``````".toList = true := by decide
example : has_code_fence "x ``` y ``` z".toList = true := by decide
example : code_fullmatch "```py\ncode\n```".toList = some "code\n".toList := by decide
example : code_fullmatch "```\nx```".toList = some "x".toList := by decide
example : code_fullmatch "```abc```".toList = none := by decide
example : code_fullmatch "x```\ny```".toList = none := by decide
example : code_fullmatch "```a\nx`````".toList = some "x``".toList := by decide
example : quote_line_group "> x".toList = some "x".toList := by decide
example : quote_line_group "   > x".toList = some "x".toList := by decide
example : quote_line_group "    > x".toList = none := by decide
example : quote_line_group ">".toList = some [] := by decide
example : quote_line_group "> ".toList = some [] := by decide
example : quote_line_group "  \t>q".toList = some "q".toList := by decide
example : ul_line_group "- a".toList = some "a".toList := by decide
example : ul_line_group "- ".toList = some " ".toList := by decide
example : ul_line_group "-a".toList = some "a".toList := by decide
example : ul_line_group "-".toList = none := by decide
example : ul_line_group "-  ".toList = some " ".toList := by decide
example : ol_class_line "1. a".toList = some 1 := by decide
example : ol_class_line "12. xy".toList = some 12 := by decide
example : ol_class_line "1.a".toList = none := by decide
example : ol_class_line "1. ".toList = none := by decide
example : ol_class_line "01. a".toList = some 1 := by decide
example : ol_render_line "1. ab".toList = some "ab".toList := by decide
example : ol_render_line "1. a".toList = none := by decide
example : ol_render_line "1.ab".toList = some "ab".toList := by decide
example : ol_render_line "1.  ab".toList = some "ab".toList := by decide
example : ol_render_line "1. a b".toList = some "a b".toList := by decide
example : text_to_textnodes "This is just plain text.".toList =
    .ok [.mk "This is just plain text.".toList .PLAIN none []] := by decide
example : text_to_textnodes "".toList = .ok [] := by decide
example : text_to_textnodes "**This is bold**".toList =
    .ok [.mk "This is bold".toList .BOLD none []] := by decide
example : text_to_textnodes "_it_".toList =
    .ok [.mk "it".toList .ITALIC none []] := by decide
example : text_to_textnodes "`This is code`".toList =
    .ok [.mk "This is code".toList .CODE none []] := by decide
example : text_to_textnodes "**bold _and italic_**".toList =
    .ok [.mk [] .BOLD none [.mk "bold ".toList .PLAIN none [],
                            .mk "and italic".toList .ITALIC none []]] := by decide
example : text_to_textnodes "*unterminated_".toList =
    .error (.valueError "Could not find closing delimiter for _".toList) := by decide
example : text_to_textnodes "*unterminated".toList =
    .ok [.mk "*unterminated".toList .PLAIN none []] := by decide
example : text_to_textnodes "a ![x y](u) b".toList =
    .ok [.mk "a ".toList .PLAIN none [],
         .mk "x y".toList .IMAGE (some "u".toList) [],
         .mk " b".toList .PLAIN none []] := by decide
example : text_to_textnodes "[t](u(v)w)".toList =
    .ok [.mk "t".toList .LINK (some "u(v".toList) [],
         .mk "w)".toList .PLAIN none []] := by decide
example : block_to_block_type "# Title".toList = .HEADING := by decide
example : block_to_block_type "1. a\n2. b".toList = .ORDERED_LIST := by decide
example : block_to_block_type "1. a\n3. b".toList = .PARAGRAPH := by decide
example : block_to_block_type "2. a\n3. b\n4. c".toList = .PARAGRAPH := by decide
example : block_to_block_type "1. a".toList = .ORDERED_LIST := by decide
example : block_to_block_type "- x\n- y".toList = .UNORDERED_LIST := by decide
example : block_to_block_type "> q".toList = .QUOTE := by decide
example : block_to_block_type "```\nx\n```".toList = .CODE := by decide
example : block_to_block_type "hello world".toList = .PARAGRAPH := by decide
example : markdown_to_html "# Title\n\nSome **bold** text".toList =
    .ok "<div><h1>Title</h1><p>Some <b>bold</b> text</p></div>".toList := by decide
example : markdown_to_html_node "1. a".toList = .error (.assertionError []) := by decide
example : markdown_to_blocks "".toList = [] := by decide
example : markdown_to_html_node "".toList = .ok (.parent (some "div".toList) [] []) := by decide
example : HTMLNode.to_html (.parent (some "div".toList) [] []) =
    .error (.valueError "None children tag for parent node".toList) := by decide
example : markdown_to_blocks "a\r\n\r\nb".toList = ["a\r\n\r\nb".toList] := by decide
example : markdown_to_blocks "a\n\nb".toList = ["a".toList, "b".toList] := by decide
example : block_to_block_type_t "| A | B |\n| --- | --- |\n| a | b |".toList
    = .TABLE := by decide
example : block_to_block_type_t "| H |\n|:-:|\n| x |".toList = .PARAGRAPH := by decide
example : block_to_block_type_t "|  A  |  B  |\n| --- |\n| bar |".toList
    = .PARAGRAPH := by decide
example : block_to_block_type_t "| A | B |\n| a | b |".toList = .PARAGRAPH := by decide
example : get_block_html_node_t "| H |\n|:---:|\n| x |".toList =
    .ok (.parent (some "table".toList)
      [.parent (some "thead".toList)
        [.parent (some "tr".toList)
          [.parent (some "th".toList) [.leaf none (some "H".toList) []]
            [("align".toList, "center".toList)]] []] [],
       .parent (some "tbody".toList)
        [.parent (some "tr".toList)
          [.parent (some "td".toList) [.leaf none (some "x".toList) []]
            [("align".toList, "center".toList)]] []] []] []) := by decide
example : text_to_textnodes "`a **b** c`".toList =
    .ok [.mk [] .CODE none [.mk "a ".toList .PLAIN none [],
                            .mk "b".toList .BOLD none [],
                            .mk " c".toList .PLAIN none []]] := by decide
example : splitlines "a\nb".toList = ["a".toList, "b".toList] := by decide
example : splitlines "a\r\nb".toList = ["a".toList, "b".toList] := by decide
example : splitlines "a\nb\n".toList = ["a".toList, "b".toList] := by decide
example : splitlines "".toList = [] := by decide
example : splitlines "\n".toList = [[]] := by decide
example : splitlines "a\n\nb".toList = ["a".toList, [], "b".toList] := by decide
example : splitOnSub "\n\n".toList "a\n\nb".toList = ["a".toList, "b".toList] := by decide
example : splitOnSub "\n\n".toList "a\r\n\r\nb".toList = ["a\r\n\r\nb".toList] := by decide
example : splitOnSub "\n\n".toList "a\n\n\nb".toList = ["a".toList, "\nb".toList] := by decide
example : splitOnSub "\n\n".toList [] = [[]] := by decide
example : pystrip "  a b \n".toList = "a b".toList := by decide

/-! ## Claims -/

/-- Claim C5: parsing the document `"# Title\n\nSome **bold** text"` and
rendering the result yields exactly
`"<div><h1>Title</h1><p>Some <b>bold</b> text</p></div>"` — a single
wrapping root element containing the h1 and the paragraph. -/
theorem C5_end_to_end :
    markdown_to_html "# Title\n\nSome **bold** text".toList =
      .ok "<div><h1>Title</h1><p>Some <b>bold</b> text</p></div>".toList ∧
    markdown_to_html_node "# Title\n\nSome **bold** text".toList =
      .ok (.parent (some "div".toList)
        [.parent (some "h1".toList) [.leaf none (some "Title".toList) []] [],
         .parent (some "p".toList)
           [.leaf none (some "Some ".toList) [],
            .leaf (some "b".toList) (some "bold".toList) [],
            .leaf none (some " text".toList) []] []] []) := by
  constructor <;> decide

/-- Claim C7 counterexample: `"**bold _and italic_**"` does NOT parse to a
Strong node whose children are `[Plain("bold "), Emphasis([Plain("and
italic")])]` — the single-child Emphasis wrapper does not survive as a
child-bearing node. -/
theorem C7_counterexample :
    text_to_textnodes "**bold _and italic_**".toList ≠
      .ok [.mk [] .BOLD none
            [.mk "bold ".toList .PLAIN none [],
             .mk [] .ITALIC none [.mk "and italic".toList .PLAIN none []]]] := by
  decide

/-- Claim C7 (amended): `"**bold _and italic_**"` parses to a single Strong
node whose children are `[Plain("bold "), Emphasis("and italic")]`, where the
single-child Emphasis wrapper has been collapsed by
`collapse_single_child_nodes` into a childless Emphasis node carrying the
text directly. -/
theorem C7_inline_nesting_amended :
    text_to_textnodes "**bold _and italic_**".toList =
      .ok [.mk [] .BOLD none
            [.mk "bold ".toList .PLAIN none [],
             .mk "and italic".toList .ITALIC none []]] := by
  decide

/-- Claim C8: `markdown_to_blocks` performs no line-ending normalization —
the CRLF version of `"a\n\nb"` stays one single block (the claim says the
two versions segment identically).  The repository's own
`test_markdown_to_blocks_mixed_line_endings` expects CRLF handling, so this
is a bug in the code, not in the claim. -/
theorem C8_crlf_divergence :
    markdown_to_blocks "a\n\nb".toList = ["a".toList, "b".toList] ∧
    markdown_to_blocks "a\r\n\r\nb".toList = ["a\r\n\r\nb".toList] ∧
    markdown_to_blocks "a\r\n\r\nb".toList ≠ markdown_to_blocks "a\n\nb".toList := by
  refine ⟨by decide, by decide, by decide⟩

/-- Claim C2: the parse is NOT total on well-classified blocks: the
single-character ordered-list item `"1. a"` classifies as ORDERED_LIST, but
the rendering regex `\d+\.\s*(\S.+)` requires two content characters, so the
`assert m is not None` in `html_node_regex_match` fails — an AssertionError,
not the unterminated-delimiter ValueError the claim permits. -/
theorem C2_assertion_failure :
    block_to_block_type "1. a".toList = .ORDERED_LIST ∧
    markdown_to_html_node "1. a".toList = .error (.assertionError []) ∧
    (∀ msg, PyError.assertionError [] ≠ .valueError msg) := by
  refine ⟨by decide, by decide, fun msg h => by cases h⟩

/-- Claim C9: serializer contract.  A tagless leaf renders as its raw
content; a parent with an absent or empty tag fails with the tag error; a
parent with empty children fails; a leaf with absent content fails. -/
theorem C9_serializer_contract :
    (∀ (v : List Char) (ps : List (List Char × List Char)),
      HTMLNode.to_html (.leaf none (some v) ps) = .ok v) ∧
    (∀ (tag : Option (List Char)) (cs : List HTMLNode)
       (ps : List (List Char × List Char)), tag = none ∨ tag = some [] →
      HTMLNode.to_html (.parent tag cs ps) =
        .error (.valueError "None tag for parent node".toList)) ∧
    (∀ (tag : Option (List Char)) (ps : List (List Char × List Char)),
      ∃ e, HTMLNode.to_html (.parent tag [] ps) = .error e) ∧
    (∀ (tag : Option (List Char)) (ps : List (List Char × List Char)),
      HTMLNode.to_html (.leaf tag none ps) =
        .error (.valueError "Empty Value".toList)) := by
  refine ⟨fun v ps => rfl, fun tag cs ps h => ?_, fun tag ps => ?_, fun tag ps => rfl⟩
  · rcases h with rfl | rfl
    · rfl
    · simp [HTMLNode.to_html]
  · match tag with
    | none => exact ⟨_, rfl⟩
    | some tg =>
      by_cases h : tg = []
      · subst h; exact ⟨_, rfl⟩
      · refine ⟨.valueError "None children tag for parent node".toList, ?_⟩
        simp [HTMLNode.to_html, h]

/-- Witness for C9: the theorem applied at concrete nodes. -/
theorem C9_serializer_contract_witness :
    HTMLNode.to_html (.parent none [HTMLNode.leaf none (some "x".toList) []] []) =
      .error (.valueError "None tag for parent node".toList) ∧
    HTMLNode.to_html (.leaf none (some "raw".toList) []) = .ok "raw".toList :=
  ⟨C9_serializer_contract.2.1 none [HTMLNode.leaf none (some "x".toList) []] []
    (Or.inl rfl),
   C9_serializer_contract.1 "raw".toList []⟩

/-- Claim C4 counterexample: a strong marker between code-span delimiters
DOES produce a nested node inside the code span — `` "`a **b** c`" `` parses
to a CodeSpan node owning three children, one of them a Strong node. -/
theorem C4_counterexample :
    text_to_textnodes "`a **b** c`".toList =
      .ok [.mk [] .CODE none
            [.mk "a ".toList .PLAIN none [],
             .mk "b".toList .BOLD none [],
             .mk " c".toList .PLAIN none []]] ∧
    (TextNode.mk [] .CODE none
      [.mk "a ".toList .PLAIN none [],
       .mk "b".toList .BOLD none [],
       .mk " c".toList .PLAIN none []]).children ≠ [] := by
  refine ⟨by decide, by decide⟩

/-- Characters of any piece of a split come from the input. -/
theorem splitOnSubF_mem (sep : List Char) :
    ∀ (fuel : Nat) (s p : List Char), p ∈ splitOnSubF sep fuel s →
      ∀ c ∈ p, c ∈ s := by
  intro fuel
  induction fuel with
  | zero =>
    intro s p hp c hc
    cases s with
    | nil =>
      simp only [splitOnSubF, List.mem_singleton] at hp
      subst hp; simp at hc
    | cons a as =>
      simp only [splitOnSubF, List.mem_singleton] at hp
      subst hp; exact hc
  | succ n ih =>
    intro s p hp c hc
    cases s with
    | nil =>
      simp only [splitOnSubF, List.mem_singleton] at hp
      subst hp; simp at hc
    | cons a as =>
      simp only [splitOnSubF] at hp
      by_cases hcond : (decide ¬sep = [] && sep.isPrefixOf (a :: as)) = true
      · rw [if_pos hcond] at hp
        rcases List.mem_cons.mp hp with rfl | hp'
        · simp at hc
        · have hmem := ih _ _ hp' c hc
          exact List.mem_cons_of_mem a (List.mem_of_mem_drop hmem)
      · rw [if_neg hcond] at hp
        cases hrec : splitOnSubF sep n as with
        | nil =>
          rw [hrec] at hp
          simp only [List.mem_singleton] at hp
          subst hp
          simp only [List.mem_singleton] at hc
          rw [hc]; exact List.mem_cons_self _ _
        | cons q qs =>
          rw [hrec] at hp
          rcases List.mem_cons.mp hp with rfl | hp'
          · rcases List.mem_cons.mp hc with rfl | hc'
            · exact List.mem_cons_self _ _
            · exact List.mem_cons_of_mem _
                (ih as q (by rw [hrec]; exact List.mem_cons_self _ _) c hc')
          · exact List.mem_cons_of_mem _
              (ih as p (by rw [hrec]; exact List.mem_cons_of_mem _ hp') c hc)

/-- Stripping an all-whitespace string gives the empty string. -/
theorem pystrip_eq_nil (s : List Char) (h : ∀ c ∈ s, isPyWs c = true) :
    pystrip s = [] := by
  unfold pystrip
  rw [List.dropWhile_eq_nil_iff.mpr h]
  simp

/-- A whitespace-only document has no blocks. -/
theorem markdown_to_blocks_ws (s : List Char) (h : ∀ c ∈ s, isPyWs c = true) :
    markdown_to_blocks s = [] := by
  unfold markdown_to_blocks splitOnSub
  apply List.filter_eq_nil_iff.mpr
  intro x hx
  rcases List.mem_map.mp hx with ⟨p, hp, rfl⟩
  have : ∀ c ∈ p, isPyWs c = true := fun c hc =>
    h c (splitOnSubF_mem _ _ _ _ hp c hc)
  simp [pystrip_eq_nil p this]

/-- Claim C10: for the empty string and every whitespace-only input, parsing
returns a root `div` parent with zero children, and rendering that root
fails (parent with no children), so an empty document cannot be converted
to HTML end-to-end. -/
theorem C10_empty_document (s : List Char) (h : ∀ c ∈ s, isPyWs c = true) :
    markdown_to_blocks s = [] ∧
    markdown_to_html_node s = .ok (.parent (some "div".toList) [] []) ∧
    HTMLNode.to_html (.parent (some "div".toList) [] []) =
      .error (.valueError "None children tag for parent node".toList) := by
  have hb := markdown_to_blocks_ws s h
  refine ⟨hb, ?_, by decide⟩
  unfold markdown_to_html_node
  rw [hb]
  rfl

/-- Witness for C10: the theorem applied to the empty string and to a
blank-lines-only document. -/
theorem C10_empty_document_witness :
    markdown_to_blocks "".toList = [] ∧
    markdown_to_html_node " \n\n \t\n ".toList =
      .ok (.parent (some "div".toList) [] []) :=
  ⟨(C10_empty_document "".toList (by decide)).1,
   (C10_empty_document " \n\n \t\n ".toList (by decide)).2.1⟩

/-- The `expected` loop of `is_ordered_list`, characterized: line `i` must
carry exactly the number `e + i`. -/
theorem olLoop_iff (ls : List (List Char)) : ∀ e : Nat,
    olLoop ls e = true ↔
      ∀ i (h : i < ls.length), ol_class_line (ls.get ⟨i, h⟩) = some (e + i) := by
  induction ls with
  | nil => intro e; simp [olLoop]
  | cons l ls ih =>
    intro e
    cases hm : ol_class_line l with
    | none =>
      simp only [olLoop, hm]
      constructor
      · intro hfalse; cases hfalse
      · intro hall
        have h0 := hall 0 (by simp)
        rw [show (l :: ls).get ⟨0, by simp⟩ = l from rfl, hm] at h0
        cases h0
    | some n =>
      simp only [olLoop, hm]
      rw [Bool.and_eq_true, decide_eq_true_iff, ih (e + 1)]
      constructor
      · rintro ⟨hne, hrest⟩ i hi
        match i with
        | 0 =>
          show ol_class_line l = some (e + 0)
          rw [hm, hne, Nat.add_zero]
        | Nat.succ j =>
          have hj : j < ls.length := by
            simpa using Nat.lt_of_succ_lt_succ (by simpa using hi)
          show ol_class_line (ls.get ⟨j, hj⟩) = some (e + (j + 1))
          rw [hrest j hj]
          ring_nf
      · intro hall
        constructor
        · have h0 := hall 0 (by simp)
          rw [show (l :: ls).get ⟨0, by simp⟩ = l from rfl, hm] at h0
          injection h0
        · intro i hi
          have hs := hall (i + 1) (by simpa using Nat.succ_lt_succ hi)
          rw [show (l :: ls).get ⟨i + 1, by simpa using Nat.succ_lt_succ hi⟩ =
                ls.get ⟨i, hi⟩ from rfl] at hs
          rw [hs]
          ring_nf

/-- Claim C3 counterexample: a block whose lines are numbered 2, 3, 4 is NOT
classified OrderedList — `is_ordered_list` starts its `expected` counter at
1 rather than at the first line's own number, so the block falls back to
Paragraph. -/
theorem C3_counterexample :
    block_to_block_type "2. a\n3. b\n4. c".toList ≠ .ORDERED_LIST ∧
    block_to_block_type "2. a\n3. b\n4. c".toList = .PARAGRAPH := by
  refine ⟨by decide, by decide⟩

/-- Claim C3 (amended): `is_ordered_list` accepts exactly the blocks whose
stripped text is non-empty and whose `i`-th line matches
`<number>. <content>` with number exactly `i + 1` — strictly consecutive
starting from 1, not from the first line's own number.  Consequently
`"1. a\n2. b"` classifies OrderedList while both `"1. a\n3. b"` and
`"2. a\n3. b\n4. c"` fall back to Paragraph. -/
theorem C3_ordered_list_amended :
    (∀ b : List Char, is_ordered_list b = true ↔
      (pystrip b ≠ [] ∧ ∀ i (h : i < (splitlines (pystrip b)).length),
        ol_class_line ((splitlines (pystrip b)).get ⟨i, h⟩) = some (i + 1))) ∧
    block_to_block_type "1. a\n2. b".toList = .ORDERED_LIST ∧
    block_to_block_type "1. a\n3. b".toList = .PARAGRAPH ∧
    block_to_block_type "2. a\n3. b\n4. c".toList = .PARAGRAPH := by
  refine ⟨fun b => ?_, by decide, by decide, by decide⟩
  by_cases hb : pystrip b = []
  · simp [is_ordered_list, hb]
  · simp only [is_ordered_list, hb, if_false]
    rw [olLoop_iff]
    constructor
    · intro h
      exact ⟨hb, fun i hi => by rw [h i hi, Nat.add_comm]⟩
    · rintro ⟨-, h⟩ i hi
      rw [h i hi, Nat.add_comm]

/-- Witness for C3: the characterization applied to the concrete block
`"1. a\n2. b"`. -/
theorem C3_ordered_list_amended_witness :
    pystrip "1. a\n2. b".toList ≠ [] ∧
    ∀ i (h : i < (splitlines (pystrip "1. a\n2. b".toList)).length),
      ol_class_line ((splitlines (pystrip "1. a\n2. b".toList)).get ⟨i, h⟩) =
        some (i + 1) :=
  (C3_ordered_list_amended.1 "1. a\n2. b".toList).mp (by decide)

/-- `pushNode` changes only children, never the stack of open delimiters. -/
theorem pushNode_fst_delims (n : TextNode) (frames : List Frame)
    (root : List TextNode) :
    ((pushNode n frames root).1).map Frame.delim = frames.map Frame.delim := by
  cases frames <;> rfl

/-- `flushInto` changes only children, never the stack of open delimiters. -/
theorem flushInto_fst_delims (buffer : List Char) (frames : List Frame)
    (root : List TextNode) :
    ((flushInto buffer frames root).1).map Frame.delim = frames.map Frame.delim := by
  unfold flushInto
  split
  · rfl
  · exact pushNode_fst_delims _ _ _

/-- One `scan` step acts on the open-delimiter stack exactly as `simStep`. -/
theorem stepState_fst_delims (buffer : List Char) (frames : List Frame)
    (root : List TextNode) (d : List Char) (ty : TextType) :
    ((stepState buffer frames root d ty).1).map Frame.delim =
      simStep (frames.map Frame.delim) d := by
  cases frames with
  | nil =>
    rcases hfl : flushInto buffer [] root with ⟨fs1, root1⟩
    have h1 : fs1.map Frame.delim = [] := by
      have h2 := flushInto_fst_delims buffer [] root
      rw [hfl] at h2
      simpa using h2
    simp [stepState, hfl, simStep, h1]
  | cons f fs =>
    by_cases hd : f.delim = d
    · rcases hpn : pushNode (TextNode.mk [] f.ty none (f.children ++ flushBuf buffer))
          fs root with ⟨fs1, root1⟩
      have h1 : fs1.map Frame.delim = fs.map Frame.delim := by
        have h2 := pushNode_fst_delims
          (TextNode.mk [] f.ty none (f.children ++ flushBuf buffer)) fs root
        rw [hpn] at h2
        simpa using h2
      simp [stepState, hd, hpn, simStep, h1]
    · rcases hfl : flushInto buffer (f :: fs) root with ⟨fs1, root1⟩
      have h1 : fs1.map Frame.delim = (f :: fs).map Frame.delim := by
        have h2 := flushInto_fst_delims buffer (f :: fs) root
        rw [hfl] at h2
        simpa using h2
      simp [stepState, hd, hfl, simStep, h1]

/-- If the pure stack simulation ends with an open delimiter on top, `scan`
returns exactly the unterminated-delimiter error naming it. -/
theorem scan_unterminated (buffer : List Char) (frames : List Frame)
    (root : List TextNode) (cs : List Char) :
    ∀ (d : List Char) (ds : List (List Char)),
      stackSim (frames.map Frame.delim) cs = d :: ds →
      scan buffer frames root cs =
        .error (.valueError ("Could not find closing delimiter for ".toList ++ d)) := by
  induction buffer, frames, root, cs using scan.induct with
  | case1 buffer root f tail =>
    intro d ds h
    simp only [stackSim, List.map] at h
    injection h with h1 h2
    simp [scan, h1]
  | case2 buffer root =>
    intro d ds h
    simp only [stackSim, List.map] at h
    cases h
  | case3 buffer frames root rest fs' root' hstep ih =>
    intro d ds h
    simp only [stackSim] at h
    simp only [scan, hstep]
    refine ih d ds ?_
    have hdel := stepState_fst_delims buffer frames root "**".toList .BOLD
    rw [hstep] at hdel
    rw [hdel]
    exact h
  | case4 buffer frames root rest fs' root' hstep ih =>
    intro d ds h
    simp only [stackSim] at h
    simp only [scan, hstep]
    refine ih d ds ?_
    have hdel := stepState_fst_delims buffer frames root "_".toList .ITALIC
    rw [hstep] at hdel
    rw [hdel]
    exact h
  | case5 buffer frames root rest fs' root' hstep ih =>
    intro d ds h
    simp only [stackSim] at h
    simp only [scan, hstep]
    refine ih d ds ?_
    have hdel := stepState_fst_delims buffer frames root "`".toList .CODE
    rw [hstep] at hdel
    rw [hdel]
    exact h
  | case6 buffer frames root c rest h1 h2 h3 ih =>
    intro d ds h
    rw [stackSim.eq_def] at h
    split at h
    · rename_i heq; cases heq
    · rename_i rest1 heq
      injection heq with hc hr
      exact (h1 rest1 hc hr).elim
    · rename_i heq
      injection heq with hc hr
      exact (h2 hc).elim
    · rename_i heq
      injection heq with hc hr
      exact (h3 hc).elim
    · rename_i x hx1 hx2 hx3 heq
      injection heq with hc hr
      rw [scan.eq_def]
      split
      · rename_i heq2; cases heq2
      · rename_i rest1 heq2
        injection heq2 with hc2 hr2
        exact (h1 rest1 hc2 hr2).elim
      · rename_i heq2
        injection heq2 with hc2 hr2
        exact (h2 hc2).elim
      · rename_i heq2
        injection heq2 with hc2 hr2
        exact (h3 hc2).elim
      · rename_i c2 rest2 hy1 hy2 hy3 heq2
        injection heq2 with hc2 hr2
        subst hc2
        subst hr2
        exact ih d ds (by rw [← hr] at h; exact h)

/-- Claim C6: for every input whose scan leaves an unclosed recognized
delimiter on the stack at end of input, the inline parser fails with the
unterminated-delimiter ValueError naming the offending delimiter, and no
node list is returned. -/
theorem C6_unterminated_delimiter (t d : List Char) (ds : List (List Char))
    (h : stackSim [] t = d :: ds) :
    text_to_textnodes t =
      .error (.valueError ("Could not find closing delimiter for ".toList ++ d)) ∧
    ∀ ns, text_to_textnodes t ≠ .ok ns := by
  have hscan := scan_unterminated [] [] [] t d ds (by simpa using h)
  have hmain : text_to_textnodes t =
      .error (.valueError ("Could not find closing delimiter for ".toList ++ d)) := by
    unfold text_to_textnodes parse_inline_with_stack
    simp [TextNode.node_type, TextNode.text, hscan]
  exact ⟨hmain, fun ns hok => by rw [hmain] at hok; cases hok⟩

/-- Witness for C6: the theorem applied to `"_unterminated"`, whose scan
leaves `_` open. -/
theorem C6_unterminated_delimiter_witness :
    text_to_textnodes "_unterminated".toList =
      .error (.valueError
        ("Could not find closing delimiter for ".toList ++ "_".toList)) :=
  (C6_unterminated_delimiter "_unterminated".toList "_".toList [] (by decide)).1

/-- Unfolding of `goodInline` into propositional form. -/
theorem goodInline_iff (t : List Char) (ty : TextType) (u : Option (List Char))
    (cs : List TextNode) :
    goodInline (.mk t ty u cs) = true ↔
      ((ty = .BOLD ∨ ty = .ITALIC ∨ ty = .CODE ∨ cs = []) ∧
        goodInlines cs = true) := by
  simp [goodInline, Bool.or_eq_true, decide_eq_true_iff, List.isEmpty_iff,
    Bool.and_eq_true, or_assoc]

/-- Childless nodes are always good. -/
theorem goodInline_childless (t : List Char) (ty : TextType)
    (u : Option (List Char)) : goodInline (.mk t ty u []) = true :=
  (goodInline_iff t ty u []).mpr ⟨by simp, rfl⟩

theorem goodInlines_append (a b : List TextNode) :
    goodInlines (a ++ b) = (goodInlines a && goodInlines b) := by
  induction a with
  | nil => simp [goodInlines]
  | cons n ns ih => simp [goodInlines, ih, Bool.and_assoc]

theorem flushBuf_good (buffer : List Char) :
    goodInlines (flushBuf buffer) = true := by
  unfold flushBuf
  split
  · rfl
  · simp [goodInlines, goodInline_childless]

theorem pushNode_good (n : TextNode) (frames : List Frame) (root : List TextNode)
    (hn : goodInline n = true) (hf : FramesGood frames)
    (hr : goodInlines root = true) :
    FramesGood (pushNode n frames root).1 ∧
    goodInlines (pushNode n frames root).2 = true := by
  cases frames with
  | nil =>
    refine ⟨fun f hmem => absurd hmem (by simp [pushNode]), ?_⟩
    simp [pushNode, goodInlines_append, hr, goodInlines, hn]
  | cons f fs =>
    refine ⟨?_, by simpa [pushNode] using hr⟩
    intro g hg
    simp only [pushNode, List.mem_cons] at hg
    rcases hg with rfl | hg'
    · have hff := hf f (List.mem_cons_self _ _)
      refine ⟨?_, hff.2⟩
      simp [goodInlines_append, hff.1, goodInlines, hn]
    · exact hf g (List.mem_cons_of_mem _ hg')

theorem flushInto_good (buffer : List Char) (frames : List Frame)
    (root : List TextNode) (hf : FramesGood frames)
    (hr : goodInlines root = true) :
    FramesGood (flushInto buffer frames root).1 ∧
    goodInlines (flushInto buffer frames root).2 = true := by
  unfold flushInto
  split
  · exact ⟨hf, hr⟩
  · exact pushNode_good _ _ _ (goodInline_childless _ _ _) hf hr

theorem stepState_good (buffer : List Char) (frames : List Frame)
    (root : List TextNode) (d : List Char) (ty : TextType)
    (hty : ty = .BOLD ∨ ty = .ITALIC ∨ ty = .CODE)
    (hf : FramesGood frames) (hr : goodInlines root = true) :
    FramesGood (stepState buffer frames root d ty).1 ∧
    goodInlines (stepState buffer frames root d ty).2 = true := by
  cases frames with
  | nil =>
    rcases hfl : flushInto buffer [] root with ⟨fs1, root1⟩
    have hflg := flushInto_good buffer [] root hf hr
    rw [hfl] at hflg
    have hstep : stepState buffer [] root d ty = (⟨d, ty, []⟩ :: fs1, root1) := by
      simp [stepState, hfl]
    rw [hstep]
    refine ⟨?_, hflg.2⟩
    intro g hg
    simp only [List.mem_cons] at hg
    rcases hg with rfl | hg'
    · exact ⟨rfl, hty⟩
    · exact hflg.1 g hg'
  | cons f fs =>
    have hff := hf f (List.mem_cons_self _ _)
    have hfs : FramesGood fs := fun g hg => hf g (List.mem_cons_of_mem _ hg)
    by_cases hd : f.delim = d
    · have hnode : goodInline (.mk [] f.ty none (f.children ++ flushBuf buffer)) = true := by
        refine (goodInline_iff _ _ _ _).mpr ⟨?_, ?_⟩
        · rcases hff.2 with h | h | h
          · exact Or.inl h
          · exact Or.inr (Or.inl h)
          · exact Or.inr (Or.inr (Or.inl h))
        · simp [goodInlines_append, hff.1, flushBuf_good]
      rcases hpn : pushNode (TextNode.mk [] f.ty none (f.children ++ flushBuf buffer))
          fs root with ⟨fs1, root1⟩
      have hgood := pushNode_good _ fs root hnode hfs hr
      rw [hpn] at hgood
      have hstep : stepState buffer (f :: fs) root d ty = (fs1, root1) := by
        simp [stepState, hd, hpn]
      rw [hstep]
      exact hgood
    · rcases hfl : flushInto buffer (f :: fs) root with ⟨fs1, root1⟩
      have hflg := flushInto_good buffer (f :: fs) root hf hr
      rw [hfl] at hflg
      have hstep : stepState buffer (f :: fs) root d ty = (⟨d, ty, []⟩ :: fs1, root1) := by
        simp [stepState, hd, hfl]
      rw [hstep]
      refine ⟨?_, hflg.2⟩
      intro g hg
      simp only [List.mem_cons] at hg
      rcases hg with rfl | hg'
      · exact ⟨rfl, hty⟩
      · exact hflg.1 g hg'

/-- The stack scan only produces good node lists. -/
theorem scan_good (buffer : List Char) (frames : List Frame)
    (root : List TextNode) (cs : List Char) :
    FramesGood frames → goodInlines root = true →
    ∀ ns, scan buffer frames root cs = .ok ns → goodInlines ns = true := by
  induction buffer, frames, root, cs using scan.induct with
  | case1 buffer root f tail =>
    intro _ _ ns hok
    simp [scan] at hok
  | case2 buffer root =>
    intro _ hr ns hok
    simp only [scan] at hok
    injection hok with hok
    rw [← hok]
    simp [goodInlines_append, hr, flushBuf_good]
  | case3 buffer frames root rest fs' root' hstep ih =>
    intro hf hr ns hok
    simp only [scan, hstep] at hok
    have hgood := stepState_good buffer frames root "**".toList .BOLD
      (Or.inl rfl) hf hr
    rw [hstep] at hgood
    exact ih hgood.1 hgood.2 ns hok
  | case4 buffer frames root rest fs' root' hstep ih =>
    intro hf hr ns hok
    simp only [scan, hstep] at hok
    have hgood := stepState_good buffer frames root "_".toList .ITALIC
      (Or.inr (Or.inl rfl)) hf hr
    rw [hstep] at hgood
    exact ih hgood.1 hgood.2 ns hok
  | case5 buffer frames root rest fs' root' hstep ih =>
    intro hf hr ns hok
    simp only [scan, hstep] at hok
    have hgood := stepState_good buffer frames root "`".toList .CODE
      (Or.inr (Or.inr rfl)) hf hr
    rw [hstep] at hgood
    exact ih hgood.1 hgood.2 ns hok
  | case6 buffer frames root c rest h1 h2 h3 ih =>
    intro hf hr ns hok
    rw [scan.eq_def] at hok
    split at hok
    · rename_i heq; cases heq
    · rename_i rest1 heq
      injection heq with hc hr'
      exact (h1 rest1 hc hr').elim
    · rename_i heq
      injection heq with hc hr'
      exact (h2 hc).elim
    · rename_i heq
      injection heq with hc hr'
      exact (h3 hc).elim
    · rename_i c2 rest2 hy1 hy2 hy3 heq
      injection heq with hc hr'
      subst hc
      subst hr'
      exact ih hf hr ns hok

/-- Pass 1 preserves goodness. -/
theorem parse_inline_with_stack_good :
    ∀ ns : List TextNode, goodInlines ns = true →
    ∀ ms, parse_inline_with_stack ns = .ok ms → goodInlines ms = true := by
  intro ns
  induction ns with
  | nil =>
    intro _ ms hok
    simp only [parse_inline_with_stack] at hok
    injection hok with hok
    rw [← hok]; rfl
  | cons n rest ih =>
    intro hg ms hok
    rw [goodInlines] at hg
    rw [Bool.and_eq_true] at hg
    simp only [parse_inline_with_stack] at hok
    split at hok
    · cases hrec : parse_inline_with_stack rest with
      | error e => rw [hrec] at hok; cases hok
      | ok more =>
        rw [hrec] at hok
        injection hok with hok
        rw [← hok, goodInlines, Bool.and_eq_true]
        exact ⟨hg.1, ih hg.2 more hrec⟩
    · cases hscan : scan [] [] [] n.text with
      | error e => rw [hscan] at hok; cases hok
      | ok parsed =>
        rw [hscan] at hok
        cases hrec : parse_inline_with_stack rest with
        | error e => rw [hrec] at hok; cases hok
        | ok more =>
          rw [hrec] at hok
          injection hok with hok
          rw [← hok, goodInlines_append, Bool.and_eq_true]
          exact ⟨scan_good [] [] [] n.text (fun f hf => absurd hf (by simp))
                  rfl parsed hscan,
                 ih hg.2 more hrec⟩

/-- The per-image loop only produces childless (hence good) nodes. -/
theorem nodes_from_images_good (ty : TextType) :
    ∀ (imgs : List (List Char × List Char)) (txt : List Char)
      (ns : List TextNode),
      nodes_from_images ty imgs txt = .ok ns → goodInlines ns = true := by
  intro imgs
  induction imgs with
  | nil =>
    intro txt ns h
    simp only [nodes_from_images] at h
    split at h <;> injection h with h <;> rw [← h] <;>
      simp [goodInlines, goodInline_childless]
  | cons p rest ih =>
    intro txt ns h
    obtain ⟨alt, url⟩ := p
    simp only [nodes_from_images] at h
    split at h
    · rename_i p0 p1 rest' heq
      cases hrec : nodes_from_images ty rest p1 with
      | error e => rw [hrec] at h; cases h
      | ok more =>
        rw [hrec] at h
        injection h with h
        rw [← h]
        simp only [goodInlines_append, Bool.and_eq_true]
        refine ⟨⟨?_, ?_⟩, ih p1 more hrec⟩
        · split <;> simp [goodInlines, goodInline_childless]
        · simp [goodInlines, goodInline_childless]
    · cases h

/-- The per-link loop only produces childless (hence good) nodes. -/
theorem nodes_from_links_good (ty : TextType) :
    ∀ (links : List (List Char × List Char)) (txt : List Char)
      (ns : List TextNode),
      nodes_from_links ty links txt = .ok ns → goodInlines ns = true := by
  intro links
  induction links with
  | nil =>
    intro txt ns h
    simp only [nodes_from_links] at h
    split at h <;> injection h with h <;> rw [← h] <;>
      simp [goodInlines, goodInline_childless]
  | cons p rest ih =>
    intro txt ns h
    obtain ⟨txt0, url⟩ := p
    simp only [nodes_from_links] at h
    split at h
    · rename_i p0 p1 rest' heq
      cases hrec : nodes_from_links ty rest p1 with
      | error e => rw [hrec] at h; cases h
      | ok more =>
        rw [hrec] at h
        injection h with h
        rw [← h]
        simp only [goodInlines_append, Bool.and_eq_true]
        refine ⟨⟨?_, ?_⟩, ih p1 more hrec⟩
        · split <;> simp [goodInlines, goodInline_childless]
        · simp [goodInlines, goodInline_childless]
    · cases h

/-- Pass 2 preserves goodness (and its per-node part). -/
theorem split_nodes_image_good_all :
    (∀ l, goodInlines l = true →
      ∀ ms, split_nodes_image l = .ok ms → goodInlines ms = true) ∧
    (∀ n, goodInline n = true →
      ∀ ms, split_nodes_image_node n = .ok ms → goodInlines ms = true) := by
  refine split_nodes_image.mutual_induct
    (fun l => goodInlines l = true →
      ∀ ms, split_nodes_image l = .ok ms → goodInlines ms = true)
    (fun n => goodInline n = true →
      ∀ ms, split_nodes_image_node n = .ok ms → goodInlines ms = true)
    ?_ ?_ ?_ ?_ ?_ ?_ ?_
  · intro t ty u cs e heq _ _ ms hok
    simp only [split_nodes_image_node] at hok
    rw [heq] at hok
    cases hok
  · intro t ty u cs rest heq hext ih hn ms hok
    simp only [split_nodes_image_node] at hok
    rw [heq, hext] at hok
    injection hok with hok
    obtain ⟨hdisj, hcs⟩ := (goodInline_iff _ _ _ _).mp hn
    rw [← hok]
    by_cases hemp : cs.isEmpty = true
    · have hrest : rest = cs := by
        rw [if_pos hemp] at heq
        injection heq with h
        exact h.symm
      have hnil : cs = [] := List.isEmpty_iff.mp hemp
      simp only [goodInlines, Bool.and_eq_true]
      refine ⟨(goodInline_iff _ _ _ _).mpr ⟨Or.inr (Or.inr (Or.inr ?_)), ?_⟩, trivial⟩
      · rw [hrest, hnil]
      · rw [hrest, hnil]; rfl
    · have hrest := ih hcs rest (by rw [if_neg hemp] at heq; exact heq)
      simp only [goodInlines, Bool.and_eq_true]
      refine ⟨(goodInline_iff _ _ _ _).mpr ⟨?_, hrest⟩, trivial⟩
      rcases hdisj with h | h | h | h
      · exact Or.inl h
      · exact Or.inr (Or.inl h)
      · exact Or.inr (Or.inr (Or.inl h))
      · exact absurd (by simp [h]) hemp
  · intro t ty u cs rest heq hext _ _ ms hok
    simp only [split_nodes_image_node] at hok
    rw [heq] at hok
    cases hextract : extract_markdown_images t with
    | nil => exact (hext hextract).elim
    | cons i is =>
      rw [hextract] at hok
      exact nodes_from_images_good ty (i :: is) t ms hok
  · intro _ ms hok
    simp only [split_nodes_image] at hok
    injection hok with hok
    rw [← hok]; rfl
  · intro n ns e herr _ _ ms hok
    simp only [split_nodes_image] at hok
    rw [herr] at hok
    cases hok
  · intro n ns rest hok1 e herr _ _ _ ms hok
    simp only [split_nodes_image] at hok
    rw [hok1, herr] at hok
    cases hok
  · intro n ns rest1 hok1 rest2 hok2 ihn ihl hg ms hok
    simp only [split_nodes_image] at hok
    rw [hok1, hok2] at hok
    injection hok with hok
    rw [goodInlines, Bool.and_eq_true] at hg
    rw [← hok, goodInlines_append, Bool.and_eq_true]
    exact ⟨ihn hg.1 rest1 hok1, ihl hg.2 rest2 hok2⟩

/-- Pass 3 preserves goodness (and its per-node part). -/
theorem split_nodes_link_good_all :
    (∀ l, goodInlines l = true →
      ∀ ms, split_nodes_link l = .ok ms → goodInlines ms = true) ∧
    (∀ n, goodInline n = true →
      ∀ ms, split_nodes_link_node n = .ok ms → goodInlines ms = true) := by
  refine split_nodes_link.mutual_induct
    (fun l => goodInlines l = true →
      ∀ ms, split_nodes_link l = .ok ms → goodInlines ms = true)
    (fun n => goodInline n = true →
      ∀ ms, split_nodes_link_node n = .ok ms → goodInlines ms = true)
    ?_ ?_ ?_ ?_ ?_ ?_ ?_
  · intro t ty u cs e heq _ _ ms hok
    simp only [split_nodes_link_node] at hok
    rw [heq] at hok
    cases hok
  · intro t ty u cs rest heq hext ih hn ms hok
    simp only [split_nodes_link_node] at hok
    rw [heq, hext] at hok
    injection hok with hok
    obtain ⟨hdisj, hcs⟩ := (goodInline_iff _ _ _ _).mp hn
    rw [← hok]
    by_cases hemp : cs.isEmpty = true
    · have hrest : rest = cs := by
        rw [if_pos hemp] at heq
        injection heq with h
        exact h.symm
      have hnil : cs = [] := List.isEmpty_iff.mp hemp
      simp only [goodInlines, Bool.and_eq_true]
      refine ⟨(goodInline_iff _ _ _ _).mpr ⟨Or.inr (Or.inr (Or.inr ?_)), ?_⟩, trivial⟩
      · rw [hrest, hnil]
      · rw [hrest, hnil]; rfl
    · have hrest := ih hcs rest (by rw [if_neg hemp] at heq; exact heq)
      simp only [goodInlines, Bool.and_eq_true]
      refine ⟨(goodInline_iff _ _ _ _).mpr ⟨?_, hrest⟩, trivial⟩
      rcases hdisj with h | h | h | h
      · exact Or.inl h
      · exact Or.inr (Or.inl h)
      · exact Or.inr (Or.inr (Or.inl h))
      · exact absurd (by simp [h]) hemp
  · intro t ty u cs rest heq hext _ _ ms hok
    simp only [split_nodes_link_node] at hok
    rw [heq] at hok
    cases hextract : extract_markdown_links t with
    | nil => exact (hext hextract).elim
    | cons i is =>
      rw [hextract] at hok
      exact nodes_from_links_good ty (i :: is) t ms hok
  · intro _ ms hok
    simp only [split_nodes_link] at hok
    injection hok with hok
    rw [← hok]; rfl
  · intro n ns e herr _ _ ms hok
    simp only [split_nodes_link] at hok
    rw [herr] at hok
    cases hok
  · intro n ns rest hok1 e herr _ _ _ ms hok
    simp only [split_nodes_link] at hok
    rw [hok1, herr] at hok
    cases hok
  · intro n ns rest1 hok1 rest2 hok2 ihn ihl hg ms hok
    simp only [split_nodes_link] at hok
    rw [hok1, hok2] at hok
    injection hok with hok
    rw [goodInlines, Bool.and_eq_true] at hg
    rw [← hok, goodInlines_append, Bool.and_eq_true]
    exact ⟨ihn hg.1 rest1 hok1, ihl hg.2 rest2 hok2⟩

/-- The collapse pass preserves goodness. -/
theorem collapse_good_all :
    (∀ l, goodInlines l = true →
      goodInlines (collapse_single_child_nodes l) = true) ∧
    (∀ n, goodInline n = true → goodInline (collapse_node n) = true) := by
  refine collapse_single_child_nodes.mutual_induct
    (fun l => goodInlines l = true →
      goodInlines (collapse_single_child_nodes l) = true)
    (fun n => goodInline n = true → goodInline (collapse_node n) = true)
    ?_ ?_ ?_ ?_ ?_ ?_
  · intro t ty u hn
    simpa [collapse_node] using hn
  · intro ty u only _
    simp only [collapse_node, if_true]
    exact goodInline_childless _ _ _
  · intro t ty u only ht hn
    simp only [collapse_node]
    rw [if_neg ht]
    exact hn
  · intro t ty u x hnil hsing ih hn
    obtain ⟨hdisj, hx⟩ := (goodInline_iff _ _ _ _).mp hn
    have hdisj' : ty = .BOLD ∨ ty = .ITALIC ∨ ty = .CODE := by
      rcases hdisj with h | h | h | h
      · exact Or.inl h
      · exact Or.inr (Or.inl h)
      · exact Or.inr (Or.inr h)
      · exact (hnil h).elim
    cases x with
    | nil => exact (hnil rfl).elim
    | cons y ys =>
      cases ys with
      | nil => exact (hsing y rfl).elim
      | cons z zs =>
        have hres : collapse_node (.mk t ty u (y :: z :: zs)) =
            .mk t ty u (collapse_single_child_nodes (y :: z :: zs)) := rfl
        rw [hres]
        exact (goodInline_iff _ _ _ _).mpr
          ⟨by rcases hdisj' with h | h | h
              · exact Or.inl h
              · exact Or.inr (Or.inl h)
              · exact Or.inr (Or.inr (Or.inl h)),
           ih hx⟩
  · intro _
    rfl
  · intro n ns ihn ihl hg
    rw [goodInlines, Bool.and_eq_true] at hg
    simp only [collapse_single_child_nodes, goodInlines, Bool.and_eq_true]
    exact ⟨ihn hg.1, ihl hg.2⟩

/-- Claim C4 (amended): in every successful inline parse only Strong,
Emphasis and CodeSpan nodes may own children — Plain, Link and Image nodes
are leaves — and, unlike the original claim, CodeSpan is child-bearing: a
strong or emphasis marker between code-span delimiters produces a nested
node inside the code span (second conjunct). -/
theorem C4_children_invariant_amended :
    (∀ (t : List Char) (ns : List TextNode),
      text_to_textnodes t = .ok ns → goodInlines ns = true) ∧
    text_to_textnodes "`a **b** c`".toList =
      .ok [.mk [] .CODE none
            [.mk "a ".toList .PLAIN none [],
             .mk "b".toList .BOLD none [],
             .mk " c".toList .PLAIN none []]] := by
  refine ⟨fun t ns h => ?_, by decide⟩
  unfold text_to_textnodes at h
  cases h1 : parse_inline_with_stack [TextNode.mk t .PLAIN none []] with
  | error e => rw [h1] at h; cases h
  | ok ns1 =>
    rw [h1] at h
    dsimp only [] at h
    have hg1 : goodInlines ns1 = true :=
      parse_inline_with_stack_good [TextNode.mk t .PLAIN none []]
        (by simp [goodInlines, goodInline_childless]) ns1 h1
    cases h2 : split_nodes_image ns1 with
    | error e => rw [h2] at h; cases h
    | ok ns2 =>
      rw [h2] at h
      dsimp only [] at h
      have hg2 : goodInlines ns2 = true :=
        split_nodes_image_good_all.1 ns1 hg1 ns2 h2
      cases h3 : split_nodes_link ns2 with
      | error e => rw [h3] at h; cases h
      | ok ns3 =>
        rw [h3] at h
        dsimp only [] at h
        have hg3 : goodInlines ns3 = true :=
          split_nodes_link_good_all.1 ns2 hg2 ns3 h3
        injection h with h
        rw [← h]
        exact collapse_good_all.1 ns3 hg3

/-- Witness for C4: the invariant applied to a concrete successful parse. -/
theorem C4_children_invariant_amended_witness :
    goodInlines [TextNode.mk "x ".toList .PLAIN none [],
                 TextNode.mk "y".toList .BOLD none [],
                 TextNode.mk " z".toList .PLAIN none []] = true :=
  C4_children_invariant_amended.1 "x **y** z".toList
    [TextNode.mk "x ".toList .PLAIN none [],
     TextNode.mk "y".toList .BOLD none [],
     TextNode.mk " z".toList .PLAIN none []] (by decide)

/-- The first entry `splitlinesAux` produces is the pending accumulator
followed by the characters before the first line terminator. -/
theorem splitlinesAux_head : ∀ (acc s : List Char), ∃ rest,
    splitlinesAux acc s =
      (acc.reverse ++ s.takeWhile (fun c => !(c = '\n' || c = '\r'))) :: rest := by
  intro acc s
  induction acc, s using splitlinesAux.induct with
  | case1 acc => exact ⟨[], by simp [splitlinesAux]⟩
  | case2 acc rest _ => exact ⟨splitlinesAux [] rest, by simp [splitlinesAux]⟩
  | case3 acc rest _ _ => exact ⟨splitlinesAux [] rest, by simp [splitlinesAux]⟩
  | case4 acc rest _ => exact ⟨splitlinesAux [] rest, by simp [splitlinesAux]⟩
  | case5 acc c rest h1 h2 h3 ih =>
    obtain ⟨r', hr'⟩ := ih
    have hpred : (!(c = '\n' || c = '\r')) = true := by
      simp only [Bool.not_eq_true', Bool.or_eq_false_iff, decide_eq_false_iff_not]
      exact ⟨h3, h2⟩
    have hstep : splitlinesAux acc (c :: rest) = splitlinesAux (c :: acc) rest := by
      rw [splitlinesAux.eq_def]
      split
      · rename_i heq; cases heq
      · rename_i rest1 heq
        injection heq with hc hrst
        exact (h1 rest1 hc hrst).elim
      · rename_i heq
        injection heq with hc hrst
        exact (h2 hc).elim
      · rename_i heq
        injection heq with hc hrst
        exact (h3 hc).elim
      · rename_i c2 rest2 hy1 hy2 hy3 heq
        injection heq with hc hrst
        rw [hc, hrst]
    refine ⟨r', ?_⟩
    rw [hstep, hr']
    simp only [List.takeWhile_cons, List.reverse_cons, List.append_assoc,
      List.singleton_append]
    rw [if_pos hpred]

/-- The first line returned by `splitlines` is the input's prefix up to the
first terminator. -/
theorem splitlines_cons_head (b l0 : List Char) (rest : List (List Char))
    (h : splitlines b = l0 :: rest) :
    l0 = b.takeWhile (fun c => !(c = '\n' || c = '\r')) := by
  cases b with
  | nil => exact absurd h (by simp [splitlines])
  | cons c cs =>
    obtain ⟨r', hr'⟩ := splitlinesAux_head [] (c :: cs)
    simp only [List.reverse_nil, List.nil_append] at hr'
    simp only [splitlines] at h
    rw [hr'] at h
    split at h
    · cases r' with
      | nil => simp at h
      | cons y ys =>
        have hdl : ((c :: cs).takeWhile (fun x => !(x = '\n' || x = '\r'))
            :: y :: ys).dropLast =
            (c :: cs).takeWhile (fun x => !(x = '\n' || x = '\r'))
              :: (y :: ys).dropLast := rfl
        rw [hdl] at h
        injection h with h1 _
        exact h1.symm
    · injection h with h1 _
      exact h1.symm

/-- When the input starts with a non-terminator, `splitlines` is non-empty
and its first line is the prefix up to the first terminator. -/
theorem splitlines_cons_of_head (c : Char) (cs : List Char)
    (hc : (!(c = '\n' || c = '\r')) = true) :
    ∃ rest, splitlines (c :: cs) =
      ((c :: cs).takeWhile (fun x => !(x = '\n' || x = '\r'))) :: rest := by
  obtain ⟨r', hr'⟩ := splitlinesAux_head [] (c :: cs)
  simp only [List.reverse_nil, List.nil_append] at hr'
  have hc' : ¬c = '\n' ∧ ¬c = '\r' := by
    simpa [Bool.not_eq_true', Bool.or_eq_false_iff, decide_eq_false_iff_not]
      using hc
  have htw : (c :: cs).takeWhile (fun x => !(x = '\n' || x = '\r')) =
      c :: cs.takeWhile (fun x => !(x = '\n' || x = '\r')) := by
    simp [List.takeWhile_cons, hc'.1, hc'.2]
  simp only [splitlines]
  rw [hr']
  split
  · cases r' with
    | nil =>
      rename_i hlast
      rw [htw] at hlast
      simp at hlast
    | cons y ys => exact ⟨(y :: ys).dropLast, rfl⟩
  · exact ⟨r', rfl⟩

/-- `dropWhile` is a `drop`. -/
theorem dropWhile_eq_drop_ex (p : Char → Bool) (l : List Char) :
    ∃ n, l.dropWhile p = l.drop n := by
  induction l with
  | nil => exact ⟨0, rfl⟩
  | cons c cs ih =>
    by_cases hc : p c = true
    · obtain ⟨n, hn⟩ := ih
      exact ⟨n + 1, by simp [List.dropWhile_cons, hc, hn]⟩
    · exact ⟨0, by simp [List.dropWhile_cons, hc]⟩

theorem head?_take (l : List Char) (k : Nat) (hk : 1 ≤ k) :
    (l.take k).head? = l.head? := by
  cases l with
  | nil => simp
  | cons c cs =>
    cases k with
    | zero => omega
    | succ j => simp [List.take]

/-- The head of a stripped string is the head after dropping leading
whitespace. -/
theorem pystrip_head (l : List Char) (h : pystrip l ≠ []) :
    (pystrip l).head? = (l.dropWhile isPyWs).head? := by
  obtain ⟨n, hn⟩ := dropWhile_eq_drop_ex isPyWs (l.dropWhile isPyWs).reverse
  have hps : pystrip l =
      (l.dropWhile isPyWs).take ((l.dropWhile isPyWs).length - n) := by
    unfold pystrip
    rw [hn, List.reverse_drop]
    simp
  rw [hps] at h ⊢
  refine head?_take _ _ ?_
  by_contra hk
  push_neg at hk
  have h0 : (l.dropWhile isPyWs).length - n = 0 := by omega
  rw [h0] at h
  simp at h

/-- Dropping whitespace skips an all-whitespace prefix. -/
theorem dropWhile_ws_append (w r : List Char) (hw : ∀ c ∈ w, isPyWs c = true) :
    (w ++ r).dropWhile isPyWs = r.dropWhile isPyWs := by
  induction w with
  | nil => rfl
  | cons c cs ih =>
    have hc := hw c (List.mem_cons_self _ _)
    simp only [List.cons_append, List.dropWhile_cons, hc, if_true]
    exact ih fun x hx => hw x (List.mem_cons_of_mem _ hx)

/-- A pipe row is an all-whitespace prefix, then `|`, then the rest; the
whitespace prefix carries no line terminator when the row itself is a line. -/
theorem isPipeRow_decomp (l : List Char) (h : isPipeRow l = true) :
    ∃ w m, l = w ++ '|' :: m ∧ ∀ c ∈ w, isPyWs c = true := by
  have h2 : 2 ≤ (pystrip l).length ∧ (pystrip l).head? = some '|' := by
    unfold isPipeRow at h
    simp only [Bool.and_eq_true, decide_eq_true_iff] at h
    exact ⟨h.1.1, h.1.2⟩
  have hne : pystrip l ≠ [] := by
    intro hnil
    rw [hnil] at h2
    simp at h2
  have hh := pystrip_head l hne
  rw [h2.2] at hh
  cases hm : l.dropWhile isPyWs with
  | nil => rw [hm] at hh; cases hh
  | cons x xs =>
    rw [hm] at hh
    injection hh.symm with hx
    refine ⟨l.takeWhile isPyWs, xs, ?_, fun c hc => List.mem_takeWhile_imp hc⟩
    conv_lhs => rw [← List.takeWhile_append_dropWhile isPyWs l, hm, hx]

theorem takeWhile_append_all (p : Char → Bool) (w r : List Char)
    (hw : ∀ c ∈ w, p c = true) :
    (w ++ r).takeWhile p = w ++ r.takeWhile p := by
  induction w with
  | nil => rfl
  | cons c cs ih =>
    have hc := hw c (List.mem_cons_self _ _)
    simp only [List.cons_append, List.takeWhile_cons, hc, if_true]
    rw [ih fun x hx => hw x (List.mem_cons_of_mem _ hx)]

/-- A block whose first character is not `#` never classifies as heading. -/
theorem heading_search_false_of_head (b : List Char)
    (h : ∀ x, b.head? = some x → ¬x = '#') : heading_search b = false := by
  unfold heading_search
  cases b with
  | nil => rfl
  | cons c cs =>
    have hc : ¬c = '#' := h c rfl
    simp [List.takeWhile_cons, hc]

/-- A pipe row never matches the quote line pattern: its first non-blank
character is `|`, not `>`. -/
theorem quote_none_of_pipe (l : List Char) (hp : isPipeRow l = true) :
    quote_line_group l = none := by
  obtain ⟨w, m, rfl, hw⟩ := isPipeRow_decomp l hp
  unfold quote_line_group
  have htw : (w ++ '|' :: m).takeWhile isPyWs = w := by
    rw [takeWhile_append_all isPyWs w _ hw]
    rw [List.takeWhile_cons]
    rw [show isPyWs '|' = false from rfl]
    simp
  rw [htw]
  simp only [List.drop_left]
  split
  · rfl
  · rfl

/-- A pipe row never matches the unordered-list line pattern: it starts
with a blank or `|`, never `-`. -/
theorem ul_none_of_pipe (l : List Char) (hp : isPipeRow l = true) :
    ul_line_group l = none := by
  obtain ⟨w, m, rfl, hw⟩ := isPipeRow_decomp l hp
  have hhead : ∃ x xs, w ++ '|' :: m = x :: xs ∧ ¬x = '-' := by
    cases w with
    | nil => exact ⟨'|', m, rfl, by decide⟩
    | cons x xs =>
      refine ⟨x, xs ++ '|' :: m, rfl, fun hx => ?_⟩
      have := hw x (List.mem_cons_self _ _)
      rw [hx] at this
      cases this
  obtain ⟨x, xs, heq, hx⟩ := hhead
  rw [heq, ul_line_group.eq_def]
  split
  · rename_i rest heq2
    injection heq2 with h1 _
    exact (hx h1).elim
  · rfl

/-- A line whose first character is not a digit fails the ordered-list
line pattern. -/
theorem ol_class_line_none_of_head (x : Char) (xs : List Char)
    (hx : isDigitCh x = false) : ol_class_line (x :: xs) = none := by
  unfold ol_class_line
  simp [List.takeWhile_cons, hx]

/-- Spec-modelled table classification, proved sufficient: a block whose
first two lines are pipe rows, whose second line is a valid delimiter row of
the same cell count, and which holds no fenced-code marker pair (rule 2
claims those first), classifies as Table. -/
theorem table_classification (b l0 l1 : List Char) (lrest : List (List Char))
    (hsp : splitlines b = l0 :: l1 :: lrest)
    (hp0 : isPipeRow l0 = true) (hp1 : isPipeRow l1 = true)
    (hdelim : (splitRowCells l1).all isDelimCell = true)
    (hcount : (splitRowCells l1).length = (splitRowCells l0).length)
    (hfence : has_code_fence b = false) :
    block_to_block_type_t b = .TABLE := by
  have hl0 := splitlines_cons_head b l0 (l1 :: lrest) hsp
  obtain ⟨w, m, hl0eq, hw⟩ := isPipeRow_decomp l0 hp0
  have hbsplit : b = l0 ++ b.dropWhile (fun c => !(c = '\n' || c = '\r')) := by
    conv_lhs => rw [← List.takeWhile_append_dropWhile
      (fun c => !(c = '\n' || c = '\r')) b]
    rw [← hl0]
  have hbeq : b = w ++ '|' :: (m ++ b.dropWhile (fun c => !(c = '\n' || c = '\r'))) := by
    conv_lhs => rw [hbsplit, hl0eq]
    simp [List.append_assoc]
  have hbne : b ≠ [] := by
    rw [hbeq]
    intro hcon
    rcases List.append_eq_nil.mp hcon with ⟨-, h2⟩
    cases h2
  have hheading : heading_search b = false := by
    refine heading_search_false_of_head b fun x hx hcon => ?_
    rw [hbeq] at hx
    cases w with
    | nil =>
      simp only [List.nil_append, List.head?] at hx
      injection hx with hx
      rw [hcon] at hx
      cases hx
    | cons y ys =>
      simp only [List.cons_append, List.head?] at hx
      injection hx with hx
      have := hw y (List.mem_cons_self _ _)
      rw [hx, hcon] at this
      cases this
  have hquote : ((splitlines b).all (fun l => (quote_line_group l).isSome)) = false := by
    rw [hsp]
    simp [List.all_cons, quote_none_of_pipe l0 hp0]
  have hul : ((splitlines b).all (fun l => (ul_line_group l).isSome)) = false := by
    rw [hsp]
    simp [List.all_cons, ul_none_of_pipe l0 hp0]
  have hol : is_ordered_list b = false := by
    unfold is_ordered_list
    by_cases hps : pystrip b = []
    · simp [hps]
    · simp only [hps, if_false]
      have hdw : b.dropWhile isPyWs =
          '|' :: (m ++ b.dropWhile (fun c => !(c = '\n' || c = '\r'))) := by
        conv_lhs => rw [hbeq]
        rw [dropWhile_ws_append w _ hw]
        rw [List.dropWhile_cons]
        rw [show isPyWs '|' = false from rfl]
        simp
      have hh := pystrip_head b hps
      rw [hdw] at hh
      cases hps2 : pystrip b with
      | nil => exact absurd hps2 hps
      | cons x pb =>
        rw [hps2] at hh
        injection hh with hh
        obtain ⟨rest2, hsp2⟩ := splitlines_cons_of_head x pb
          (by rw [hh]; decide)
        rw [hsp2]
        have htw2 : (x :: pb).takeWhile (fun c => !(c = '\n' || c = '\r')) =
            x :: pb.takeWhile (fun c => !(c = '\n' || c = '\r')) := by
          rw [List.takeWhile_cons]
          rw [hh]
          simp
        rw [htw2]
        rw [olLoop]
        rw [ol_class_line_none_of_head x _ (by rw [hh]; rfl)]
  have htable : is_table_block b = true := by
    unfold is_table_block
    rw [hsp]
    simp [hp0, hp1, hdelim, hcount]
  unfold block_to_block_type_t
  rw [if_neg hbne, if_neg (by simp [hheading]), if_neg (by simp [hfence]),
    if_neg (by simp [hquote]), if_neg (by simp [hul]),
    if_neg (by simp [hol]), if_pos htable]

/-- Claim C1 counterexample: (a) the claim's own instance — header `| H |`,
delimiter `|:-:|`, body `| x |` — does not classify as Table: `:-:` has one
dash, below the claim's (and spec §4.1 rule 6's) three-dash minimum, so the
block falls through to Paragraph and no cell carries `align="center"`; (b) a
block satisfying all the claim's conditions but containing a fenced-code
marker pair classifies as Code, because rule 2 precedes the table rule. -/
theorem C1_counterexample :
    block_to_block_type_t "| H |\n|:-:|\n| x |".toList = .PARAGRAPH ∧
    (isPipeRow "| ```x``` | y |".toList = true ∧
     isPipeRow "| --- | --- |".toList = true ∧
     (splitRowCells "| --- | --- |".toList).all isDelimCell = true ∧
     (splitRowCells "| --- | --- |".toList).length =
       (splitRowCells "| ```x``` | y |".toList).length ∧
     block_to_block_type_t "| ```x``` | y |\n| --- | --- |".toList = .CODE) := by
  refine ⟨by decide, by decide, by decide, by decide, by decide, by decide⟩

/-- Claim C1 (amended, spec-modelled): for every block whose first two lines
are pipe rows, whose second line is a valid delimiter row (`:---`, `---:`,
`:---:` or `---`, at least 3 dashes) with the header row's cell count, and
which contains no fenced-code marker pair (classification rule 2 fires
first), classification yields Table.  Every rendered cell's props are
exactly its column alignment's attributes, center and right emitting
`align="center"` / `align="right"`; in particular, for header `| H |`,
delimiter `|:---:|` (three dashes, as the pattern requires), body `| x |`,
the single rendered header and body cell both carry `align="center"`. -/
theorem C1_table_amended :
    (∀ (b l0 l1 : List Char) (lrest : List (List Char)),
      splitlines b = l0 :: l1 :: lrest →
      isPipeRow l0 = true → isPipeRow l1 = true →
      (splitRowCells l1).all isDelimCell = true →
      (splitRowCells l1).length = (splitRowCells l0).length →
      has_code_fence b = false →
      block_to_block_type_t b = .TABLE) ∧
    (∀ (tag : List Char) (al : ColAlign) (txt : List Char) (c : HTMLNode),
      make_table_cell tag al txt = .ok c → c.props = alignProps al) ∧
    (alignProps .center = [("align".toList, "center".toList)] ∧
     alignProps .right = [("align".toList, "right".toList)] ∧
     alignProps .left = []) ∧
    get_block_html_node_t "| H |\n|:---:|\n| x |".toList =
      .ok (.parent (some "table".toList)
        [.parent (some "thead".toList)
          [.parent (some "tr".toList)
            [.parent (some "th".toList) [.leaf none (some "H".toList) []]
              [("align".toList, "center".toList)]] []] [],
         .parent (some "tbody".toList)
          [.parent (some "tr".toList)
            [.parent (some "td".toList) [.leaf none (some "x".toList) []]
              [("align".toList, "center".toList)]] []] []] []) := by
  refine ⟨table_classification, fun tag al txt c h => ?_, ⟨rfl, rfl, rfl⟩, by decide⟩
  unfold make_table_cell at h
  cases h1 : text_to_textnodes txt with
  | error e => rw [h1] at h; cases h
  | ok tns =>
    rw [h1] at h
    dsimp only [] at h
    cases h2 : text_nodes_to_html_nodes tns with
    | error e => rw [h2] at h; cases h
    | ok hs =>
      rw [h2] at h
      dsimp only [] at h
      split at h
      · injection h with h
        rw [← h]
        rfl
      · injection h with h
        rw [← h]
        rfl

/-- Witness for C1: the classification part applied to a concrete 2-column
table block, and the cell-props part applied to a concrete rendered cell. -/
theorem C1_table_amended_witness :
    block_to_block_type_t "| A | B |\n| --- | --- |\n| a | b |".toList = .TABLE ∧
    (HTMLNode.parent (some "th".toList) [.leaf none (some "H".toList) []]
        [("align".toList, "center".toList)]).props = alignProps .center :=
  ⟨C1_table_amended.1 "| A | B |\n| --- | --- |\n| a | b |".toList
      "| A | B |".toList "| --- | --- |".toList ["| a | b |".toList]
      (by decide) (by decide) (by decide) (by decide) (by decide) (by decide),
   C1_table_amended.2.1 "th".toList .center "H".toList
      (.parent (some "th".toList) [.leaf none (some "H".toList) []]
        [("align".toList, "center".toList)]) (by decide)⟩

end Loom
